import Mathlib

/-!
Verification of the typed-graph / morphism data model and the force-layout
configuration of the graph-morphism visualizer.

The definitions below are a shallow embedding of the TypeScript sources
(src/graph.ts and src/graph-layout.ts).  JavaScript objects used as
string-keyed dictionaries are embedded as association lists in insertion
order, where assigning to an existing key overwrites in place and assigning
to a fresh key appends; numbers are embedded as rationals; functions that
throw are embedded as Except-valued functions; fields that may hold the
JavaScript value undefined are embedded as Option.
-/

/-- Assignment on the entry list of a dictionary (obj[k] = v): overwrite the
binding in place if the key is present, otherwise append a fresh binding. -/
def Gmap.setEntries {K V : Type} [DecidableEq K] : List (K × V) → K → V → List (K × V)
  | [], k, v => [(k, v)]
  | (k', v') :: rest, k, v =>
      if k' = k then (k, v) :: rest else (k', v') :: Gmap.setEntries rest k v

/-- Lookup on the entry list of a dictionary (reading obj[k]). -/
def Gmap.getEntries {K V : Type} [DecidableEq K] (l : List (K × V)) (k : K) : Option V :=
  (l.find? (fun p => p.1 = k)).map (fun p => p.2)

/-- Association-list map mirroring a JavaScript object used as a dictionary:
keys are kept in insertion order, assignment to an existing key overwrites
in place. -/
structure Gmap (K V : Type) where
  entries : List (K × V)
deriving DecidableEq

namespace Gmap

variable {K V : Type} [DecidableEq K]

/-- Lookup (reading obj[k]): the value stored at the key, if present. -/
def get (m : Gmap K V) (k : K) : Option V := getEntries m.entries k

/-- Assignment (obj[k] = v). -/
def set (m : Gmap K V) (k : K) (v : V) : Gmap K V := ⟨setEntries m.entries k v⟩

/-- The stored values, in key insertion order (d3.values(obj)). -/
def values (m : Gmap K V) : List V := m.entries.map (fun p => p.2)

/-- The keys, in insertion order (Object.keys(obj)). -/
def keys (m : Gmap K V) : List K := m.entries.map (fun p => p.1)

/-- The empty dictionary. -/
def empty : Gmap K V := ⟨[]⟩

end Gmap

/-! ## Type schema (src/graph.ts, TypeGraph / NodeType / EdgeType) -/

/-- A node type of the schema: a unique name, a circle radius for layout and
rendering, and an optional icon hint. -/
structure NodeType where
  name : String
  radius : ℚ
  icon : Option String
deriving DecidableEq

/-- An edge type of the schema: a name and the list of allowed
(source node type, target node type) signatures, already resolved to
node-type references. -/
structure EdgeType where
  name : String
  signatures : List (NodeType × NodeType)
deriving DecidableEq

/-- EdgeType.allowsSignature: scans the signature list for one whose source
and target both match the given types. -/
def EdgeType.allowsSignature (t : EdgeType) (sourceType targetType : NodeType) : Bool :=
  t.signatures.any (fun signature =>
    decide (signature.1 = sourceType) && decide (signature.2 = targetType))

/-- An edge-type stub of the schema specification: signatures refer to node
types by name. -/
structure EdgeTypeStub where
  name : String
  signatures : List (String × String)
deriving DecidableEq

/-- The type schema: dictionaries of node types and edge types by name. -/
structure TypeGraph where
  nodes : Gmap String NodeType
  edges : Gmap String EdgeType
deriving DecidableEq

/-- assembleNodeTypes: registers each node type under its name, in order. -/
def assembleNodeTypes (nodeTypes : List NodeType) : Gmap String NodeType :=
  nodeTypes.foldl (fun types nodeType => types.set nodeType.name nodeType) Gmap.empty

/-- Resolution of the signature list of one edge-type stub against the
node-type dictionary: each referenced name must be present, otherwise the
assembly throws. -/
def resolveSignatures (nodeTypes : Gmap String NodeType) :
    List (String × String) → Except String (List (NodeType × NodeType))
  | [] => Except.ok []
  | (src, tgt) :: rest =>
      match nodeTypes.get src with
      | none => Except.error "assembleEdgeTypes: unknown source node type"
      | some srcType =>
          match nodeTypes.get tgt with
          | none => Except.error "assembleEdgeTypes: unknown target node type"
          | some tgtType =>
              (resolveSignatures nodeTypes rest).map
                (fun sigs => (srcType, tgtType) :: sigs)

/-- assembleEdgeTypes, with the accumulated dictionary made explicit. -/
def assembleEdgeTypesAux (nodeTypes : Gmap String NodeType)
    (acc : Gmap String EdgeType) :
    List EdgeTypeStub → Except String (Gmap String EdgeType)
  | [] => Except.ok acc
  | stub :: rest =>
      match resolveSignatures nodeTypes stub.signatures with
      | Except.error e => Except.error e
      | Except.ok sigs =>
          assembleEdgeTypesAux nodeTypes
            (acc.set stub.name (EdgeType.mk stub.name sigs)) rest

/-- assembleEdgeTypes: resolves each edge-type stub and registers the
resulting edge type under its name. -/
def assembleEdgeTypes (nodeTypes : Gmap String NodeType) (stubs : List EdgeTypeStub) :
    Except String (Gmap String EdgeType) :=
  assembleEdgeTypesAux nodeTypes Gmap.empty stubs

/-- TypeGraph.assemble: builds the node-type dictionary first, then the
edge-type dictionary, propagating any resolution error. -/
def TypeGraph.assemble (nodeTypes : List NodeType) (edgeTypes : List EdgeTypeStub) :
    Except String TypeGraph :=
  let ns := assembleNodeTypes nodeTypes
  match assembleEdgeTypes ns edgeTypes with
  | Except.error e => Except.error e
  | Except.ok es => Except.ok (TypeGraph.mk ns es)

/-! ## Instance graphs (src/graph.ts, Graph / Graph.Node / Graph.Edge)

The d3 uniform random generator RANDOM_POSITION over the interval 0 to 500
is embedded as an abstract stream of rationals: sample n of the stream is
the value returned by the n-th call of the generator.  The node constructor
consumes two consecutive samples, the x coordinate first.
-/

/-- A node of an instance graph.  The stub coordinates are overwritten by
two samples of the random generator at construction. -/
structure Graph.Node where
  id : String
  type : NodeType
  x : ℚ
  y : ℚ
  dragging : Bool
  pinned : Bool
deriving DecidableEq

/-- A node is fixed (excluded from force-driven movement) while it is
dragged or pinned. -/
def Graph.Node.isFixed (n : Graph.Node) : Bool := n.dragging || n.pinned

/-- A node stub of the graph specification. -/
structure Graph.NodeStub where
  id : String
  type : String
  x : ℚ
  y : ℚ
deriving DecidableEq

/-- The Graph.Node constructor: resolves the type by name (throwing if it is
absent), then assigns the stub coordinates and immediately overwrites them
with the two given samples rx and ry of the random generator, and clears the
dragging and pinned flags. -/
def Graph.Node.make (types : TypeGraph) (stub : Graph.NodeStub) (rx ry : ℚ) :
    Except String Graph.Node :=
  match types.nodes.get stub.type with
  | none => Except.error "Graph::Node::constructor: unknown node type"
  | some t =>
      Except.ok (Graph.Node.mk stub.id t rx ry false false)

/-- An edge of an instance graph. -/
structure Graph.Edge where
  id : Int
  type : EdgeType
  source : Graph.Node
  target : Graph.Node
  labelDisp : ℚ
  labelWidth : ℚ
  labelHeight : ℚ
deriving DecidableEq

/-- An edge stub of the graph specification. -/
structure Graph.EdgeStub where
  id : Int
  type : String
  source : String
  target : String
deriving DecidableEq

/-- The Graph.Edge constructor: resolves the edge type, the source node and
the target node by name (throwing on the first absent reference, in that
order), then checks the type signature and throws if the resolved source and
target types are not allowed. -/
def Graph.Edge.make (types : TypeGraph) (nodes : Gmap String Graph.Node)
    (stub : Graph.EdgeStub) : Except String Graph.Edge :=
  match types.edges.get stub.type with
  | none => Except.error "Graph::Node::constructor: unknown edge type"
  | some edgeType =>
      match nodes.get stub.source with
      | none => Except.error "Graph::Node::constructor: unknown edge source"
      | some source =>
          match nodes.get stub.target with
          | none => Except.error "Graph::Node::constructor: unknown edge target"
          | some target =>
              if edgeType.allowsSignature source.type target.type then
                Except.ok (Graph.Edge.mk stub.id edgeType source target (1/2) 0 0)
              else
                Except.error "Graph::Node::constructor: invalid types for source and target"

/-- assembleNodes, with the accumulated dictionary and the index of the next
random sample made explicit: the i-th constructed node consumes samples 2i
and 2i+1 of the generator stream. -/
def assembleNodesAux (types : TypeGraph) (rng : ℕ → ℚ) :
    List Graph.NodeStub → ℕ → Gmap String Graph.Node →
    Except String (Gmap String Graph.Node)
  | [], _, acc => Except.ok acc
  | stub :: rest, i, acc =>
      match Graph.Node.make types stub (rng (2 * i)) (rng (2 * i + 1)) with
      | Except.error e => Except.error e
      | Except.ok node => assembleNodesAux types rng rest (i + 1) (acc.set stub.id node)

/-- assembleNodes: constructs each node in order and registers it under its
id, drawing two fresh random samples per node. -/
def assembleNodes (types : TypeGraph) (stubs : List Graph.NodeStub) (rng : ℕ → ℚ) :
    Except String (Gmap String Graph.Node) :=
  assembleNodesAux types rng stubs 0 Gmap.empty

/-- assembleEdges, with the accumulated dictionary made explicit. -/
def assembleEdgesAux (types : TypeGraph) (nodes : Gmap String Graph.Node) :
    List Graph.EdgeStub → Gmap Int Graph.Edge →
    Except String (Gmap Int Graph.Edge)
  | [], acc => Except.ok acc
  | stub :: rest, acc =>
      match Graph.Edge.make types nodes stub with
      | Except.error e => Except.error e
      | Except.ok edge => assembleEdgesAux types nodes rest (acc.set stub.id edge)

/-- assembleEdges: constructs each edge in order and registers it under its
id. -/
def assembleEdges (types : TypeGraph) (nodes : Gmap String Graph.Node)
    (stubs : List Graph.EdgeStub) : Except String (Gmap Int Graph.Edge) :=
  assembleEdgesAux types nodes stubs Gmap.empty

/-- An instance graph: its schema and its node and edge dictionaries. -/
structure Graph where
  types : TypeGraph
  nodes : Gmap String Graph.Node
  edges : Gmap Int Graph.Edge
deriving DecidableEq

/-- Graph.assemble: builds the nodes first, then the edges, propagating the
first error thrown by a constructor. -/
def Graph.assemble (types : TypeGraph) (nodes : List Graph.NodeStub)
    (edges : List Graph.EdgeStub) (rng : ℕ → ℚ) : Except String Graph :=
  match assembleNodes types nodes rng with
  | Except.error e => Except.error e
  | Except.ok ns =>
      match assembleEdges types ns edges with
      | Except.error e => Except.error e
      | Except.ok es => Except.ok (Graph.mk types ns es)

/-! ## Morphisms (src/graph.ts, Morphism)

The mapping dictionaries store the raw result of the dictionary lookups
performed by Morphism.assemble; since those lookups may yield the JavaScript
value undefined when the referenced id is absent, the stored values are
Options.  The field numMappedElements is an Option as well: it holds none
while the field has never been assigned (the JavaScript value undefined).
-/

/-- The pair of mapping dictionaries of one direction of a morphism. -/
structure GraphMapping where
  nodes : Gmap String (Option Graph.Node)
  edges : Gmap Int (Option Graph.Edge)
deriving DecidableEq

/-- The pair of equivalence-class dictionaries of one direction. -/
structure EquivClassMap where
  nodes : Gmap String ℕ
  edges : Gmap Int ℕ
deriving DecidableEq

/-- A morphism between two instance graphs. -/
structure Morphism where
  domain : Graph
  codomain : Graph
  mappingFromDomain : GraphMapping
  mappingFromCodomain : GraphMapping
  numMappedElements : Option ℕ
  equivalenceClassFromDomain : EquivClassMap
  equivalenceClassFromCodomain : EquivClassMap
deriving DecidableEq

/-- The mutable state of the Morphism.assemble loops: the four dictionaries
under construction and the shared counter numEquivClasses. -/
structure MAssembleState where
  fromDomNodes : Gmap String (Option Graph.Node)
  fromCodNodes : Gmap String (Option Graph.Node)
  eqDomNodes : Gmap String ℕ
  eqCodNodes : Gmap String ℕ
  fromDomEdges : Gmap Int (Option Graph.Edge)
  fromCodEdges : Gmap Int (Option Graph.Edge)
  eqDomEdges : Gmap Int ℕ
  eqCodEdges : Gmap Int ℕ
  numEquivClasses : ℕ

/-- The first loop of Morphism.assemble: for each node pair, store the raw
lookup of the codomain node under the domain id and vice versa, assign the
next class index to both sides and increment the counter. -/
def Morphism.nodeLoop (domain codomain : Graph) :
    List (String × String) → MAssembleState → MAssembleState
  | [], st => st
  | (n1, n2) :: rest, st =>
      Morphism.nodeLoop domain codomain rest
        { st with
          fromDomNodes := st.fromDomNodes.set n1 (codomain.nodes.get n2)
          fromCodNodes := st.fromCodNodes.set n2 (domain.nodes.get n1)
          eqDomNodes := st.eqDomNodes.set n1 st.numEquivClasses
          eqCodNodes := st.eqCodNodes.set n2 st.numEquivClasses
          numEquivClasses := st.numEquivClasses + 1 }

/-- The second loop of Morphism.assemble, over the edge pairs, continuing
with the counter left by the node loop. -/
def Morphism.edgeLoop (domain codomain : Graph) :
    List (Int × Int) → MAssembleState → MAssembleState
  | [], st => st
  | (e1, e2) :: rest, st =>
      Morphism.edgeLoop domain codomain rest
        { st with
          fromDomEdges := st.fromDomEdges.set e1 (codomain.edges.get e2)
          fromCodEdges := st.fromCodEdges.set e2 (domain.edges.get e1)
          eqDomEdges := st.eqDomEdges.set e1 st.numEquivClasses
          eqCodEdges := st.eqCodEdges.set e2 st.numEquivClasses
          numEquivClasses := st.numEquivClasses + 1 }

/-- Morphism.assemble: runs the node loop and then the edge loop starting
from empty dictionaries and counter 0, and returns the morphism.  Note that
the field numMappedElements is never assigned by the source and therefore
remains undefined, and that no referenced id is validated. -/
def Morphism.assemble (domain codomain : Graph) (nodeMapping : List (String × String))
    (edgeMapping : List (Int × Int)) : Morphism :=
  let st0 : MAssembleState :=
    MAssembleState.mk Gmap.empty Gmap.empty Gmap.empty Gmap.empty
      Gmap.empty Gmap.empty Gmap.empty Gmap.empty 0
  let st1 := Morphism.nodeLoop domain codomain nodeMapping st0
  let st2 := Morphism.edgeLoop domain codomain edgeMapping st1
  { domain := domain
    codomain := codomain
    mappingFromDomain := GraphMapping.mk st2.fromDomNodes st2.fromDomEdges
    mappingFromCodomain := GraphMapping.mk st2.fromCodNodes st2.fromCodEdges
    numMappedElements := none
    equivalenceClassFromDomain := EquivClassMap.mk st2.eqDomNodes st2.eqDomEdges
    equivalenceClassFromCodomain := EquivClassMap.mk st2.eqCodNodes st2.eqCodEdges }

/-! ## Force layout (src/graph-layout.ts)

Each d3 force object constructed by the layouter is embedded as a value of
the inductive LayForce recording the kind of force and its configured
accessors.  The numeric domain of JavaScript is embedded as Option applied
to the rationals where the value NaN can arise (none standing for NaN);
the degree dictionary stores Option-valued counts for the same reason.
-/

/-- The layouter configuration: the recognized keys of the parameter store
with their types. -/
structure Config where
  gravityStrength : ℚ
  nodeRepulsionStrength : ℚ
  edgeLength : ℚ
  edgeStrength : ℚ
  mappingConsistency : ℚ
  layouterOn : Bool
  autoCenter : Bool

/-- GraphLayouter.Configuration: the initial values installed by the
constructor. -/
def GraphLayouter.defaultConfiguration : Config :=
  Config.mk (1/100) (-120) 100 (1/5) (3/10) true true

/-- A force object as configured by the layouter: the constructor tells the
d3 force kind, the fields hold the configured target, strength, radius and
distance accessors. -/
inductive LayForce where
  | positionX (x : Graph.Node → ℚ) (strength : Graph.Node → ℚ)
  | positionY (y : Graph.Node → ℚ) (strength : Graph.Node → ℚ)
  | manyBody (strength : ℚ)
  | collide (radius : Graph.Node → ℚ)
  | link (distance : Graph.Edge → ℚ) (strength : Graph.Edge → Option ℚ)
  | center (x y : ℚ)

/-- Whether a force object is a collision-avoidance force (d3.forceCollide). -/
def LayForce.isCollide : LayForce → Bool
  | LayForce.collide _ => true
  | _ => false

/-- makeGravity: a pair of positional forces toward the viewport center with
the configured gravity strength. -/
def makeGravity (config : Config) (width height : ℚ) : LayForce × LayForce :=
  (LayForce.positionX (fun _ => width / 2) (fun _ => config.gravityStrength),
   LayForce.positionY (fun _ => height / 2) (fun _ => config.gravityStrength))

/-- makeNodeRepulsion: a many-body force with the configured repulsion
strength. -/
def makeNodeRepulsion (config : Config) : LayForce :=
  LayForce.manyBody config.nodeRepulsionStrength

/-- makeNodeCollision: a collision force whose per-node radius is the radius
of the node type. -/
def makeNodeCollision : LayForce :=
  LayForce.collide (fun node => node.type.radius)

/-- makeCenteringForce: a centering force on the viewport center. -/
def makeCenteringForce (width height : ℚ) : LayForce :=
  LayForce.center (width / 2) (height / 2)

/-- One increment degree[k]++ of the degree dictionary: an existing count is
incremented; reading an absent key yields undefined, and undefined + 1 is
NaN (stored as none), as is NaN + 1. -/
def degreeIncr (m : Gmap String (Option ℕ)) (k : String) : Gmap String (Option ℕ) :=
  match m.get k with
  | some (some v) => m.set k (some (v + 1))
  | some none => m.set k none
  | none => m.set k none

/-- The degree dictionary built by makeEdgeAttraction: every node id is
first bound to 0, then both endpoint counts of every edge are incremented. -/
def degreeTable (nodes : List Graph.Node) (edges : List Graph.Edge) :
    Gmap String (Option ℕ) :=
  edges.foldl (fun m edge => degreeIncr (degreeIncr m edge.source.id) edge.target.id)
    (nodes.foldl (fun m node => m.set node.id (some 0)) Gmap.empty)

/-- Reading degree[id] as a JavaScript number: a stored count, or NaN when
the key is absent or holds NaN. -/
def degreeVal (m : Gmap String (Option ℕ)) (id : String) : Option ℚ :=
  match m.get id with
  | some (some v) => some (v : ℚ)
  | _ => none

/-- The per-edge strength accessor installed by makeEdgeAttraction: the
given strength divided by the smaller endpoint degree (NaN propagates). -/
def makeEdgeStrength (degree : Gmap String (Option ℕ)) (strength : ℚ)
    (e : Graph.Edge) : Option ℚ :=
  match degreeVal degree e.source.id, degreeVal degree e.target.id with
  | some d1, some d2 => some (strength / min d1 d2)
  | _, _ => none

/-- The per-edge distance accessor installed by makeEdgeAttraction: the
given rest length plus both endpoint type radii. -/
def edgeDistance (length : ℚ) (e : Graph.Edge) : ℚ :=
  length + e.source.type.radius + e.target.type.radius

/-- makeEdgeAttraction: a link force over the edges whose distance and
strength accessors are built from the current configuration and the degree
dictionary of the given nodes and edges. -/
def makeEdgeAttraction (config : Config) (nodes : List Graph.Node)
    (edges : List Graph.Edge) : LayForce :=
  LayForce.link (edgeDistance config.edgeLength)
    (makeEdgeStrength (degreeTable nodes edges) config.edgeStrength)

/-- The edgeLength change handler: reinstalls the distance accessor with the
new length, leaving the strength accessor untouched. -/
def onEdgeLengthChange (length : ℚ) : LayForce → LayForce
  | LayForce.link _ s => LayForce.link (edgeDistance length) s
  | f => f

/-- The edgeStrength change handler: reinstalls the strength accessor with
the new strength over the captured degree dictionary, leaving the distance
accessor untouched. -/
def onEdgeStrengthChange (degree : Gmap String (Option ℕ)) (strength : ℚ) :
    LayForce → LayForce
  | LayForce.link d _ => LayForce.link d (makeEdgeStrength degree strength)
  | f => f

/-- A change of one of the two edge parameters through the parameter
store. -/
inductive EdgeParamEvent where
  | setLength (length : ℚ)
  | setStrength (strength : ℚ)

/-- Application of a sequence of parameter changes to the link force via the
registered change handlers. -/
def applyEdgeParamEvents (degree : Gmap String (Option ℕ)) (f : LayForce) :
    List EdgeParamEvent → LayForce
  | [] => f
  | EdgeParamEvent.setLength l :: rest =>
      applyEdgeParamEvents degree (onEdgeLengthChange l f) rest
  | EdgeParamEvent.setStrength s :: rest =>
      applyEdgeParamEvents degree (onEdgeStrengthChange degree s f) rest

/-- The edge length currently configured after a sequence of parameter
changes. -/
def curEdgeLength (init : ℚ) : List EdgeParamEvent → ℚ
  | [] => init
  | EdgeParamEvent.setLength l :: rest => curEdgeLength l rest
  | EdgeParamEvent.setStrength _ :: rest => curEdgeLength init rest

/-- The edge strength currently configured after a sequence of parameter
changes. -/
def curEdgeStrength (init : ℚ) : List EdgeParamEvent → ℚ
  | [] => init
  | EdgeParamEvent.setLength _ :: rest => curEdgeStrength init rest
  | EdgeParamEvent.setStrength s :: rest => curEdgeStrength s rest

/-- The counterpart lookup of the morphism consistency force: the node
stored under the id, where both an absent key and a stored undefined yield
no counterpart. -/
def morphismLookup (morphism : GraphMapping) (id : String) : Option Graph.Node :=
  (morphism.nodes.get id).join

/-- The target x accessor of the morphism consistency force: the current x
of the counterpart, or 0 when there is none. -/
def morphismTargetX (morphism : GraphMapping) (n1 : Graph.Node) : ℚ :=
  match morphismLookup morphism n1.id with
  | some n2 => n2.x
  | none => 0

/-- The target y accessor of the morphism consistency force. -/
def morphismTargetY (morphism : GraphMapping) (n1 : Graph.Node) : ℚ :=
  match morphismLookup morphism n1.id with
  | some n2 => n2.y
  | none => 0

/-- The per-node strength accessor of the morphism consistency force: zero
without a counterpart, the configured strength doubled and capped at 1 when
the counterpart is pinned, the configured strength otherwise. -/
def makeMorphismStrength (morphism : GraphMapping) (strength : ℚ)
    (n1 : Graph.Node) : ℚ :=
  match morphismLookup morphism n1.id with
  | none => 0
  | some n2 => if n2.pinned then min 1 (2 * strength) else strength

/-- makeMorphismForce: the pair of positional forces pulling each node
toward the current position of its counterpart. -/
def makeMorphismForce (morphism : GraphMapping) (config : Config) :
    LayForce × LayForce :=
  (LayForce.positionX (morphismTargetX morphism)
      (makeMorphismStrength morphism config.mappingConsistency),
   LayForce.positionY (morphismTargetY morphism)
      (makeMorphismStrength morphism config.mappingConsistency))

/-- The force dictionary registered on the d3 simulation by the
GraphLayouter constructor: the exact chain of simulation.force calls.  The
collision force is constructed but never registered. -/
def layouterRegisteredForces (config : Config) (graph : Graph)
    (morphism : GraphMapping) (width height : ℚ) : Gmap String LayForce :=
  let gravity := makeGravity config width height
  let nodeRepulsion := makeNodeRepulsion config
  let nodeCollision := makeNodeCollision
  let edgeAttraction := makeEdgeAttraction config graph.nodes.values graph.edges.values
  let centeringForce := makeCenteringForce width height
  let morphismForce := makeMorphismForce morphism config
  ((((((((Gmap.empty : Gmap String LayForce).set
    "gravityX" gravity.1).set
    "gravityY" gravity.2).set
    "nodeRepulsion" nodeRepulsion).set
    "edgeAttraction" edgeAttraction).set
    "centering" centeringForce).set
    "morphismX" morphismForce.1).set
    "morphismY" morphismForce.2)

/-! ## Derived notions and concrete fixtures used by the theorems below -/

/-- The number of incidences of a node id in an edge list: one per edge
having it as source plus one per edge having it as target (a self-loop
counts twice), exactly as the degree dictionary counts. -/
def incidentCount (id : String) (edges : List Graph.Edge) : ℕ :=
  edges.countP (fun e => decide (e.source.id = id)) +
    edges.countP (fun e => decide (e.target.id = id))

/-- A deterministic stand-in stream for the random generator. -/
def exRng : ℕ → ℚ := fun n => (n : ℚ)

/-- The elevator node type of the example schema. -/
def exElevatorType : NodeType := NodeType.mk "elevator" 20 none

/-- The floor node type of the example schema. -/
def exFloorType : NodeType := NodeType.mk "floor" 20 none

/-- The node types of the example schema. -/
def exNodeTypes : List NodeType := [exElevatorType, exFloorType]

/-- The edge types of the example schema: an edge type on from elevator to
floor. -/
def exEdgeTypeStubs : List EdgeTypeStub := [EdgeTypeStub.mk "on" [("elevator", "floor")]]

/-- The assembled example schema. -/
def exTypes : TypeGraph :=
  (TypeGraph.assemble exNodeTypes exEdgeTypeStubs).toOption.getD
    (TypeGraph.mk Gmap.empty Gmap.empty)

/-- A fallback empty graph for fixture extraction. -/
def exEmptyGraph : Graph :=
  Graph.mk (TypeGraph.mk Gmap.empty Gmap.empty) Gmap.empty Gmap.empty

/-- A small assembled domain graph: one floor node. -/
def exLHS : Graph :=
  (Graph.assemble exTypes [Graph.NodeStub.mk "floor" "floor" 0 0] [] exRng).toOption.getD
    exEmptyGraph

/-- A small assembled codomain graph: a floor node, an elevator node and one
on edge between them. -/
def exRHS : Graph :=
  (Graph.assemble exTypes
    [Graph.NodeStub.mk "floor" "floor" 0 0, Graph.NodeStub.mk "e1" "elevator" 0 0]
    [Graph.EdgeStub.mk 1 "on" "e1" "floor"] exRng).toOption.getD exEmptyGraph

/-- A fallback edge for fixture extraction. -/
def exFallbackEdge : Graph.Edge :=
  Graph.Edge.mk 0 (EdgeType.mk "" []) (Graph.Node.mk "" exFloorType 0 0 false false)
    (Graph.Node.mk "" exFloorType 0 0 false false) 0 0 0

/-- The edge of the example codomain graph. -/
def exEdge : Graph.Edge := (exRHS.edges.get 1).getD exFallbackEdge

/-- A pinned node serving as a mapped counterpart. -/
def exPinnedNode : Graph.Node := Graph.Node.mk "b" exFloorType 7 9 false true

/-- A one-pair morphism projection mapping the id a to a pinned counterpart. -/
def exMapping : GraphMapping :=
  GraphMapping.mk (Gmap.mk [("a", some exPinnedNode)]) (Gmap.mk [])

/-- A node whose id a has a counterpart under exMapping. -/
def exProbeNode : Graph.Node := Graph.Node.mk "a" exFloorType 0 0 false false

/-- A node whose id z has no counterpart under exMapping. -/
def exLoneNode : Graph.Node := Graph.Node.mk "z" exFloorType 0 0 false false

/-! ## Dictionary lemmas -/

namespace Gmap

variable {K V : Type} [DecidableEq K]

theorem getEntries_nil (k : K) : getEntries ([] : List (K × V)) k = none := rfl

theorem getEntries_cons (k' : K) (v' : V) (l : List (K × V)) (k : K) :
    getEntries ((k', v') :: l) k = if k' = k then some v' else getEntries l k := by
  by_cases h : k' = k <;> simp [getEntries, List.find?, h]

theorem getEntries_set_self (l : List (K × V)) (k : K) (v : V) :
    getEntries (setEntries l k v) k = some v := by
  induction l with
  | nil => simp [setEntries, getEntries_cons]
  | cons p rest ih =>
      obtain ⟨k', v'⟩ := p
      by_cases h : k' = k
      · simp [setEntries, h, getEntries_cons]
      · simp [setEntries, h, getEntries_cons, ih]

theorem getEntries_set_other (l : List (K × V)) {k' k : K} (v : V) (h : k' ≠ k) :
    getEntries (setEntries l k' v) k = getEntries l k := by
  induction l with
  | nil => simp [setEntries, getEntries_cons, h, getEntries_nil]
  | cons p rest ih =>
      obtain ⟨k₀, v₀⟩ := p
      by_cases h₀ : k₀ = k'
      · subst h₀
        simp [setEntries, getEntries_cons, h]
      · simp [setEntries, h₀, getEntries_cons, ih]

theorem get_set_self (m : Gmap K V) (k : K) (v : V) :
    (m.set k v).get k = some v := getEntries_set_self m.entries k v

theorem get_set_other (m : Gmap K V) {k' k : K} (v : V) (h : k' ≠ k) :
    (m.set k' v).get k = m.get k := getEntries_set_other m.entries v h

theorem setEntries_eq_append (l : List (K × V)) (k : K) (v : V)
    (h : k ∉ l.map (fun p => p.1)) :
    setEntries l k v = l ++ [(k, v)] := by
  induction l with
  | nil => simp [setEntries]
  | cons p rest ih =>
      obtain ⟨k₀, v₀⟩ := p
      simp only [List.map_cons, List.mem_cons] at h
      push_neg at h
      have : k₀ ≠ k := fun he => h.1 he.symm
      simp [setEntries, this, ih h.2]

theorem getEntries_append (l₁ l₂ : List (K × V)) (k : K) :
    getEntries (l₁ ++ l₂) k = ((getEntries l₁ k).orElse (fun _ => getEntries l₂ k)) := by
  induction l₁ with
  | nil => simp [getEntries_nil, Option.orElse]
  | cons p rest ih =>
      obtain ⟨k₀, v₀⟩ := p
      by_cases h : k₀ = k
      · simp [getEntries_cons, h, Option.orElse]
      · simpa [getEntries_cons, h] using ih

theorem getEntries_mem {l : List (K × V)} {k : K} {v : V}
    (h : getEntries l k = some v) : (k, v) ∈ l := by
  induction l with
  | nil => simp [getEntries_nil] at h
  | cons p rest ih =>
      obtain ⟨k₀, v₀⟩ := p
      by_cases hk : k₀ = k
      · subst hk
        simp [getEntries_cons] at h
        simp [h]
      · simp [getEntries_cons, hk] at h
        exact List.mem_cons_of_mem _ (ih h)

theorem mem_values_of_get {m : Gmap K V} {k : K} {v : V} (h : m.get k = some v) :
    v ∈ m.values := by
  have := getEntries_mem h
  exact List.mem_map.mpr ⟨(k, v), this, rfl⟩

theorem values_setEntries_subset {l : List (K × V)} {k : K} {x v : V}
    (h : v ∈ (setEntries l k x).map (fun p => p.2)) :
    v ∈ l.map (fun p => p.2) ∨ v = x := by
  induction l with
  | nil => simp [setEntries] at h; simp [h]
  | cons p rest ih =>
      obtain ⟨k₀, v₀⟩ := p
      by_cases hk : k₀ = k
      · simp [setEntries, hk] at h
        rcases h with h | h
        · right; exact h
        · left; simp [h]
      · simp [setEntries, hk] at h
        rcases h with h | h
        · left; simp [h]
        · obtain ⟨a, ha⟩ := h
          rcases ih (List.mem_map.mpr ⟨(a, v), ha, rfl⟩) with h' | h'
          · left; simp at h' ⊢; exact Or.inr h'
          · right; exact h'

theorem values_set_subset {m : Gmap K V} {k : K} {x v : V}
    (h : v ∈ (m.set k x).values) : v ∈ m.values ∨ v = x :=
  values_setEntries_subset h

theorem getEntries_of_entry_nodup {l : List (K × V)}
    (hk : (l.map (fun p => p.1)).Nodup)
    {k : K} {v : V} (hm : (k, v) ∈ l) : getEntries l k = some v := by
  induction l with
  | nil => simp at hm
  | cons p rest ih =>
      obtain ⟨k₀, v₀⟩ := p
      simp only [List.map_cons, List.nodup_cons] at hk
      rcases List.mem_cons.mp hm with h | h
      · rw [Prod.mk.injEq] at h
        obtain ⟨h1, h2⟩ := h
        subst h1; subst h2
        simp [getEntries_cons]
      · have hne : k₀ ≠ k := by
          intro he
          subst he
          exact hk.1 (List.mem_map.mpr ⟨(k₀, v), h, rfl⟩)
        simp [getEntries_cons, hne]
        exact ih hk.2 h


end Gmap

theorem Gmap.mem_setEntries {K V : Type} [DecidableEq K] {l : List (K × V)}
    {k : K} {x : K × V} {v : V} (h : x ∈ Gmap.setEntries l k v) :
    x ∈ l ∨ x = (k, v) := by
  induction l with
  | nil => simp [Gmap.setEntries] at h; simp [h]
  | cons p rest ih =>
      obtain ⟨k₀, v₀⟩ := p
      by_cases hk : k₀ = k
      · simp [Gmap.setEntries, hk] at h
        rcases h with h | h
        · right; exact h
        · left; simp [h]
      · simp [Gmap.setEntries, hk] at h
        rcases h with h | h
        · left; simp [h]
        · rcases ih h with h' | h'
          · left; exact List.mem_cons_of_mem _ h'
          · right; exact h'

/-! ## Claim theorems -/

/-- C1: the claim states that for every GraphMorphism returned by
Morphism.assemble the field numMappedElements equals the number of mapped
nodes plus mapped edges.  The source never assigns the field: on the
concrete one-pair morphism of the spec scenario, exactly one equivalence
class is assigned (the class dictionaries carry exactly the index 0), yet
numMappedElements is still undefined rather than 1. -/
theorem numMappedElements_never_assigned :
    (Morphism.assemble exLHS exRHS [("floor", "floor")] []).numMappedElements = none ∧
    (Morphism.assemble exLHS exRHS [("floor", "floor")]
        []).equivalenceClassFromDomain.nodes.values ++
      (Morphism.assemble exLHS exRHS [("floor", "floor")]
        []).equivalenceClassFromDomain.edges.values = [0] ∧
    (Morphism.assemble exLHS exRHS [("floor", "floor")] []).numMappedElements ≠ some 1 := by
  refine ⟨rfl, rfl, ?_⟩
  intro h
  exact Option.noConfusion h

/-- C2: the claim states that the collision-avoidance force with per-node
radius NodeType.radius is among the force terms registered on the
simulation.  The constructor does build such a force (makeNodeCollision is a
collide force), but the chain of simulation.force registrations never
includes it: for every configuration, graph, morphism projection and
viewport, no registered force is a collide force. -/
theorem nodeCollision_never_registered (config : Config) (graph : Graph)
    (morphism : GraphMapping) (width height : ℚ) :
    makeNodeCollision.isCollide = true ∧
    (layouterRegisteredForces config graph morphism width height).values.all
      (fun f => ! f.isCollide) = true :=
  ⟨rfl, rfl⟩

/-- C3 counterexample: the claim states that Morphism.assemble fails with an
error when a referenced id is absent and that no partially-built morphism is
retained.  On the concrete input mapping the floor node to the absent
codomain id request, assembly does not fail: it returns a morphism that
records the pair, with the undefined lookup as its value. -/
theorem morphism_assemble_no_error_on_absent_id :
    exRHS.nodes.get "request" = none ∧
    (Morphism.assemble exLHS exRHS [("floor", "request")]
        []).mappingFromDomain.nodes.get "floor" = some none ∧
    (Morphism.assemble exLHS exRHS [("floor", "request")]
        []).equivalenceClassFromDomain.nodes.get "floor" = some 0 := by
  refine ⟨rfl, rfl, rfl⟩

/-- C6: the morphism consistency force targets the current position of the
mapped counterpart and uses the configured consistency strength, doubled and
capped at 1 when the counterpart is pinned; a node without counterpart gets
zero strength.  The accessors installed by makeMorphismForce are exactly the
ones characterized here. -/
theorem morphism_force_spec (morphism : GraphMapping) (s : ℚ) (n1 : Graph.Node) :
    (∀ n2, morphismLookup morphism n1.id = some n2 →
      morphismTargetX morphism n1 = n2.x ∧
      morphismTargetY morphism n1 = n2.y ∧
      (n2.pinned = true → makeMorphismStrength morphism s n1 = min 1 (2 * s)) ∧
      (n2.pinned = false → makeMorphismStrength morphism s n1 = s)) ∧
    (morphismLookup morphism n1.id = none → makeMorphismStrength morphism s n1 = 0) ∧
    (∀ config : Config, makeMorphismForce morphism config =
      (LayForce.positionX (morphismTargetX morphism)
        (makeMorphismStrength morphism config.mappingConsistency),
       LayForce.positionY (morphismTargetY morphism)
        (makeMorphismStrength morphism config.mappingConsistency))) := by
  refine ⟨?_, ?_, fun _ => rfl⟩
  · intro n2 h
    refine ⟨?_, ?_, ?_, ?_⟩
    · simp [morphismTargetX, h]
    · simp [morphismTargetY, h]
    · intro hp; simp [makeMorphismStrength, h, hp]
    · intro hp; simp [makeMorphismStrength, h, hp]
  · intro h
    simp [makeMorphismStrength, h]

/-- C6 witness: on the concrete mapping with a pinned counterpart at (7, 9)
and consistency strength 3/10, the probe node is pulled toward (7, 9) with
strength 3/5, and the unmapped node gets strength 0. -/
theorem morphism_force_spec_witness :
    morphismTargetX exMapping exProbeNode = 7 ∧
    morphismTargetY exMapping exProbeNode = 9 ∧
    makeMorphismStrength exMapping (3/10) exProbeNode = 3/5 ∧
    makeMorphismStrength exMapping (3/10) exLoneNode = 0 := by
  have h1 := morphism_force_spec exMapping (3/10) exProbeNode
  have h2 := morphism_force_spec exMapping (3/10) exLoneNode
  have hl : morphismLookup exMapping exProbeNode.id = some exPinnedNode := rfl
  have hl2 : morphismLookup exMapping exLoneNode.id = none := rfl
  obtain ⟨hx, hy, hpin, -⟩ := h1.1 exPinnedNode hl
  refine ⟨by rw [hx]; rfl, by rw [hy]; rfl, ?_, h2.2.1 hl2⟩
  have := hpin rfl
  rw [this, min_def]
  norm_num

theorem edge_make_ok_spec {types : TypeGraph} {nodes : Gmap String Graph.Node}
    {stub : Graph.EdgeStub} {edge : Graph.Edge}
    (h : Graph.Edge.make types nodes stub = Except.ok edge) :
    ∃ et sn tn, types.edges.get stub.type = some et ∧
      nodes.get stub.source = some sn ∧
      nodes.get stub.target = some tn ∧
      et.allowsSignature sn.type tn.type = true ∧
      edge = Graph.Edge.mk stub.id et sn tn (1/2) 0 0 := by
  unfold Graph.Edge.make at h
  cases het : types.edges.get stub.type with
  | none => rw [het] at h; cases h
  | some et =>
      rw [het] at h
      dsimp only at h
      cases hsn : nodes.get stub.source with
      | none => rw [hsn] at h; cases h
      | some sn =>
          rw [hsn] at h
          dsimp only at h
          cases htn : nodes.get stub.target with
          | none => rw [htn] at h; cases h
          | some tn =>
              rw [htn] at h
              dsimp only at h
              split_ifs at h with hsig
              · cases h
                exact ⟨et, sn, tn, rfl, rfl, rfl, hsig, rfl⟩

theorem assembleEdgesAux_values_prop (types : TypeGraph) (nodes : Gmap String Graph.Node)
    (P : Graph.Edge → Prop)
    (hmk : ∀ stub edge, Graph.Edge.make types nodes stub = Except.ok edge → P edge) :
    ∀ (stubs : List Graph.EdgeStub) (acc res : Gmap Int Graph.Edge),
      (∀ e ∈ acc.values, P e) →
      assembleEdgesAux types nodes stubs acc = Except.ok res →
      ∀ e ∈ res.values, P e := by
  intro stubs
  induction stubs with
  | nil =>
      intro acc res hacc h
      unfold assembleEdgesAux at h
      cases h
      exact hacc
  | cons stub rest ih =>
      intro acc res hacc h
      unfold assembleEdgesAux at h
      cases hmk₀ : Graph.Edge.make types nodes stub with
      | error e => rw [hmk₀] at h; cases h
      | ok edge =>
          rw [hmk₀] at h
          refine ih (acc.set stub.id edge) res ?_ h
          intro e he
          rcases Gmap.values_set_subset he with h' | h'
          · exact hacc e h'
          · subst h'
            exact hmk stub e hmk₀

/-- C5: an edge whose resolved source and target types are not among its
edge type signatures makes the Edge constructor (and hence Graph.assemble)
throw, and every successfully assembled graph satisfies the signature
invariant on all of its edges. -/
theorem edge_signature_enforced :
    (∀ (types : TypeGraph) (nodes : Gmap String Graph.Node) (stub : Graph.EdgeStub)
       (et : EdgeType) (sn tn : Graph.Node),
       types.edges.get stub.type = some et →
       nodes.get stub.source = some sn →
       nodes.get stub.target = some tn →
       et.allowsSignature sn.type tn.type = false →
       Graph.Edge.make types nodes stub =
         Except.error "Graph::Node::constructor: invalid types for source and target") ∧
    (∀ (types : TypeGraph) (nstubs : List Graph.NodeStub) (estubs : List Graph.EdgeStub)
       (rng : ℕ → ℚ) (g : Graph),
       Graph.assemble types nstubs estubs rng = Except.ok g →
       ∀ e ∈ g.edges.values, e.type.allowsSignature e.source.type e.target.type = true) := by
  constructor
  · intro types nodes stub et sn tn h1 h2 h3 hsig
    simp [Graph.Edge.make, h1, h2, h3, hsig]
  · intro types nstubs estubs rng g h
    unfold Graph.assemble at h
    cases hns : assembleNodes types nstubs rng with
    | error e => rw [hns] at h; cases h
    | ok ns =>
        rw [hns] at h
        dsimp only at h
        cases hes : assembleEdges types ns estubs with
        | error e => rw [hes] at h; cases h
        | ok es =>
            rw [hes] at h
            dsimp only at h
            cases h
            refine assembleEdgesAux_values_prop types ns
              (fun e => e.type.allowsSignature e.source.type e.target.type = true)
              ?_ estubs Gmap.empty es (by intro e he; cases he) hes
            intro stub edge hmk
            obtain ⟨et, sn, tn, -, -, -, hsig, hedge⟩ := edge_make_ok_spec hmk
            subst hedge
            exact hsig

/-- C5 witness: in the spec scenario, the wrong-direction on edge from the
floor node to the elevator node throws the signature error, and the edge of
the assembled example graph satisfies the signature invariant. -/
theorem edge_signature_enforced_witness :
    Graph.Edge.make exTypes exRHS.nodes (Graph.EdgeStub.mk 2 "on" "floor" "e1") =
      Except.error "Graph::Node::constructor: invalid types for source and target" ∧
    exEdge.type.allowsSignature exEdge.source.type exEdge.target.type = true := by
  constructor
  · exact edge_signature_enforced.1 exTypes exRHS.nodes (Graph.EdgeStub.mk 2 "on" "floor" "e1")
      (EdgeType.mk "on" [(exElevatorType, exFloorType)])
      (Graph.Node.mk "floor" exFloorType 0 1 false false)
      (Graph.Node.mk "e1" exElevatorType 2 3 false false)
      rfl rfl rfl rfl
  · exact edge_signature_enforced.2 exTypes
      [Graph.NodeStub.mk "floor" "floor" 0 0, Graph.NodeStub.mk "e1" "elevator" 0 0]
      [Graph.EdgeStub.mk 1 "on" "e1" "floor"] exRng exRHS rfl exEdge
      (by rw [show exRHS.edges.values = [exEdge] from rfl]; exact List.mem_singleton.mpr rfl)

theorem foldSetNodeTypes_get_not_mem (l : List NodeType) (acc : Gmap String NodeType)
    (k : String) (h : k ∉ l.map NodeType.name) :
    (l.foldl (fun m nt => m.set nt.name nt) acc).get k = acc.get k := by
  induction l generalizing acc with
  | nil => rfl
  | cons nt rest ih =>
      simp only [List.map_cons, List.mem_cons] at h
      push_neg at h
      rw [List.foldl_cons, ih _ h.2, Gmap.get_set_other _ _ (fun he => h.1 he.symm)]

theorem assembleNodeTypes_get_aux (l : List NodeType)
    (hn : (l.map NodeType.name).Nodup) (acc : Gmap String NodeType) :
    ∀ nt ∈ l, (l.foldl (fun m t => m.set t.name t) acc).get nt.name = some nt := by
  induction l generalizing acc with
  | nil => intro nt h; cases h
  | cons hd rest ih =>
      simp only [List.map_cons, List.nodup_cons] at hn
      intro nt hmem
      rcases List.mem_cons.mp hmem with h | h
      · subst h
        rw [List.foldl_cons, foldSetNodeTypes_get_not_mem rest _ _ hn.1]
        exact Gmap.get_set_self acc nt.name nt
      · exact ih hn.2 _ nt h

theorem resolveSignatures_error_of_absent (nodeTypes : Gmap String NodeType) :
    ∀ sigs : List (String × String),
      (∃ p ∈ sigs, nodeTypes.get p.1 = none ∨ nodeTypes.get p.2 = none) →
      ∃ e, resolveSignatures nodeTypes sigs = Except.error e := by
  intro sigs
  induction sigs with
  | nil => rintro ⟨p, hp, -⟩; cases hp
  | cons hd rest ih =>
      rintro ⟨p, hp, habs⟩
      obtain ⟨s, t⟩ := hd
      cases hs : nodeTypes.get s with
      | none =>
          exact ⟨"assembleEdgeTypes: unknown source node type",
            by simp [resolveSignatures, hs]⟩
      | some srcType =>
          cases ht : nodeTypes.get t with
          | none =>
              exact ⟨"assembleEdgeTypes: unknown target node type",
                by simp [resolveSignatures, hs, ht]⟩
          | some tgtType =>
              have hrest : p ∈ rest := by
                rcases List.mem_cons.mp hp with h | h
                · exfalso
                  rw [h] at habs
                  dsimp only at habs
                  rcases habs with habs | habs
                  · rw [habs] at hs; cases hs
                  · rw [habs] at ht; cases ht
                · exact h
              obtain ⟨e, he⟩ := ih ⟨p, hrest, habs⟩
              exact ⟨e, by simp [resolveSignatures, hs, ht, he, Except.map]⟩

theorem assembleEdgeTypesAux_get_not_mem (nodeTypes : Gmap String NodeType) :
    ∀ (stubs : List EdgeTypeStub) (acc res : Gmap String EdgeType) (k : String),
      assembleEdgeTypesAux nodeTypes acc stubs = Except.ok res →
      k ∉ stubs.map EdgeTypeStub.name → res.get k = acc.get k := by
  intro stubs
  induction stubs with
  | nil =>
      intro acc res k h hk
      cases h
      rfl
  | cons stub rest ih =>
      intro acc res k h hk
      simp only [List.map_cons, List.mem_cons] at hk
      push_neg at hk
      unfold assembleEdgeTypesAux at h
      cases hres : resolveSignatures nodeTypes stub.signatures with
      | error e => rw [hres] at h; cases h
      | ok sigs =>
          rw [hres] at h
          dsimp only at h
          rw [ih _ res k h hk.2, Gmap.get_set_other _ _ (fun he => hk.1 he.symm)]

theorem assembleEdgeTypesAux_get (nodeTypes : Gmap String NodeType) :
    ∀ (stubs : List EdgeTypeStub) (acc res : Gmap String EdgeType),
      (stubs.map EdgeTypeStub.name).Nodup →
      assembleEdgeTypesAux nodeTypes acc stubs = Except.ok res →
      ∀ stub ∈ stubs, ∃ sigs,
        resolveSignatures nodeTypes stub.signatures = Except.ok sigs ∧
        res.get stub.name = some (EdgeType.mk stub.name sigs) := by
  intro stubs
  induction stubs with
  | nil => intro acc res _ h stub hmem; cases hmem
  | cons hd rest ih =>
      intro acc res hn h stub hmem
      simp only [List.map_cons, List.nodup_cons] at hn
      unfold assembleEdgeTypesAux at h
      cases hres : resolveSignatures nodeTypes hd.signatures with
      | error e => rw [hres] at h; cases h
      | ok sigs =>
          rw [hres] at h
          dsimp only at h
          rcases List.mem_cons.mp hmem with hm | hm
          · subst hm
            refine ⟨sigs, hres, ?_⟩
            rw [assembleEdgeTypesAux_get_not_mem nodeTypes rest _ res stub.name h hn.1]
            exact Gmap.get_set_self acc stub.name (EdgeType.mk stub.name sigs)
          · exact ih _ res hn.2 h stub hm

theorem assembleEdgeTypesAux_error_of_absent (nodeTypes : Gmap String NodeType) :
    ∀ (stubs : List EdgeTypeStub) (acc : Gmap String EdgeType),
      (∃ stub ∈ stubs, ∃ p ∈ stub.signatures,
        nodeTypes.get p.1 = none ∨ nodeTypes.get p.2 = none) →
      ∃ e, assembleEdgeTypesAux nodeTypes acc stubs = Except.error e := by
  intro stubs
  induction stubs with
  | nil => rintro acc ⟨stub, hmem, -⟩; cases hmem
  | cons hd rest ih =>
      rintro acc ⟨stub, h260, habs⟩
      rcases List.mem_cons.mp h260 with hm | hm
      · subst hm
        obtain ⟨e, he⟩ := resolveSignatures_error_of_absent nodeTypes stub.signatures habs
        exact ⟨e, by unfold assembleEdgeTypesAux; rw [he]⟩
      · cases hres : resolveSignatures nodeTypes hd.signatures with
        | error e => exact ⟨e, by unfold assembleEdgeTypesAux; rw [hres]⟩
        | ok sigs =>
            obtain ⟨e, he⟩ := ih _ ⟨stub, hm, habs⟩
            exact ⟨e, by unfold assembleEdgeTypesAux; rw [hres]; exact he⟩

/-- C7: TypeGraph.assemble builds the node-type dictionary first and, when
any signature name of any edge-type stub is absent from it, fails with an
error; on success the schema holds every given node type under its name and
every given edge type with its signatures resolved against the node-type
dictionary.  Failure returns only the error, so no partial schema is
observable. -/
theorem typegraph_assemble_spec (nodeTypes : List NodeType) (edgeTypes : List EdgeTypeStub)
    (hn : (nodeTypes.map NodeType.name).Nodup)
    (he : (edgeTypes.map EdgeTypeStub.name).Nodup) :
    (∀ tg, TypeGraph.assemble nodeTypes edgeTypes = Except.ok tg →
      tg.nodes = assembleNodeTypes nodeTypes ∧
      (∀ nt ∈ nodeTypes, tg.nodes.get nt.name = some nt) ∧
      (∀ stub ∈ edgeTypes, ∃ sigs,
        resolveSignatures tg.nodes stub.signatures = Except.ok sigs ∧
        tg.edges.get stub.name = some (EdgeType.mk stub.name sigs))) ∧
    ((∃ stub ∈ edgeTypes, ∃ p ∈ stub.signatures,
        (assembleNodeTypes nodeTypes).get p.1 = none ∨
        (assembleNodeTypes nodeTypes).get p.2 = none) →
      ∃ e, TypeGraph.assemble nodeTypes edgeTypes = Except.error e) := by
  constructor
  · intro tg h
    unfold TypeGraph.assemble at h
    dsimp only at h
    cases hes : assembleEdgeTypes (assembleNodeTypes nodeTypes) edgeTypes with
    | error e => rw [hes] at h; cases h
    | ok es =>
        rw [hes] at h
        dsimp only at h
        cases h
        refine ⟨rfl, ?_, ?_⟩
        · intro nt hmem
          exact assembleNodeTypes_get_aux nodeTypes hn Gmap.empty nt hmem
        · intro stub hmem
          exact assembleEdgeTypesAux_get (assembleNodeTypes nodeTypes) edgeTypes
            Gmap.empty es he hes stub hmem
  · intro habs
    obtain ⟨e, hee⟩ := assembleEdgeTypesAux_error_of_absent
      (assembleNodeTypes nodeTypes) edgeTypes Gmap.empty habs
    refine ⟨e, ?_⟩
    unfold TypeGraph.assemble
    dsimp only
    rw [show assembleEdgeTypes (assembleNodeTypes nodeTypes) edgeTypes =
      Except.error e from hee]

/-- C7 witness: on the example schema, assembly succeeds, the floor node
type is stored under its name and the on edge type is stored with its
resolved signature; adding an edge type whose signature names a missing
node type makes assembly fail. -/
theorem typegraph_assemble_spec_witness :
    exTypes.nodes.get "floor" = some exFloorType ∧
    (∃ sigs, resolveSignatures exTypes.nodes [("elevator", "floor")] = Except.ok sigs ∧
      exTypes.edges.get "on" = some (EdgeType.mk "on" sigs)) ∧
    (∃ e, TypeGraph.assemble exNodeTypes
      [EdgeTypeStub.mk "holds" [("request", "floor")]] = Except.error e) := by
  have h := typegraph_assemble_spec exNodeTypes exEdgeTypeStubs (by decide) (by decide)
  obtain ⟨-, hnt, het⟩ := h.1 exTypes rfl
  have h2 := typegraph_assemble_spec exNodeTypes
    [EdgeTypeStub.mk "holds" [("request", "floor")]] (by decide) (by decide)
  refine ⟨hnt exFloorType (by simp [exNodeTypes]), ?_, ?_⟩
  · exact het (EdgeTypeStub.mk "on" [("elevator", "floor")]) (by simp [exEdgeTypeStubs])
  · exact h2.2 ⟨EdgeTypeStub.mk "holds" [("request", "floor")], by simp,
      ("request", "floor"), by simp, Or.inl rfl⟩

theorem Gmap.keys_set_fresh {K V : Type} [DecidableEq K] {m : Gmap K V} {k : K}
    (v : V) (h : k ∉ m.keys) : (m.set k v).keys = m.keys ++ [k] := by
  unfold Gmap.set Gmap.keys
  rw [Gmap.setEntries_eq_append m.entries k v h]
  simp

theorem Gmap.entries_set_fresh {K V : Type} [DecidableEq K] {m : Gmap K V} {k : K}
    (v : V) (h : k ∉ m.keys) : (m.set k v).entries = m.entries ++ [(k, v)] :=
  Gmap.setEntries_eq_append m.entries k v h

theorem Morphism.nodeLoop_eqDomEdges (d c : Graph) :
    ∀ (pairs : List (String × String)) (st : MAssembleState),
      (Morphism.nodeLoop d c pairs st).eqDomEdges = st.eqDomEdges := by
  intro pairs
  induction pairs with
  | nil => intro st; rfl
  | cons p rest ih =>
      intro st
      obtain ⟨n1, n2⟩ := p
      rw [show Morphism.nodeLoop d c ((n1, n2) :: rest) st =
        Morphism.nodeLoop d c rest
          { st with
            fromDomNodes := st.fromDomNodes.set n1 (c.nodes.get n2)
            fromCodNodes := st.fromCodNodes.set n2 (d.nodes.get n1)
            eqDomNodes := st.eqDomNodes.set n1 st.numEquivClasses
            eqCodNodes := st.eqCodNodes.set n2 st.numEquivClasses
            numEquivClasses := st.numEquivClasses + 1 } from rfl, ih]

theorem Morphism.nodeLoop_eqCodEdges (d c : Graph) :
    ∀ (pairs : List (String × String)) (st : MAssembleState),
      (Morphism.nodeLoop d c pairs st).eqCodEdges = st.eqCodEdges := by
  intro pairs
  induction pairs with
  | nil => intro st; rfl
  | cons p rest ih =>
      intro st
      obtain ⟨n1, n2⟩ := p
      exact ih _

theorem Morphism.edgeLoop_eqDomNodes (d c : Graph) :
    ∀ (pairs : List (Int × Int)) (st : MAssembleState),
      (Morphism.edgeLoop d c pairs st).eqDomNodes = st.eqDomNodes := by
  intro pairs
  induction pairs with
  | nil => intro st; rfl
  | cons p rest ih =>
      intro st
      obtain ⟨e1, e2⟩ := p
      exact ih _

theorem Morphism.edgeLoop_eqCodNodes (d c : Graph) :
    ∀ (pairs : List (Int × Int)) (st : MAssembleState),
      (Morphism.edgeLoop d c pairs st).eqCodNodes = st.eqCodNodes := by
  intro pairs
  induction pairs with
  | nil => intro st; rfl
  | cons p rest ih =>
      intro st
      obtain ⟨e1, e2⟩ := p
      exact ih _

theorem Morphism.nodeLoop_numEquivClasses (d c : Graph) :
    ∀ (pairs : List (String × String)) (st : MAssembleState),
      (Morphism.nodeLoop d c pairs st).numEquivClasses =
        st.numEquivClasses + pairs.length := by
  intro pairs
  induction pairs with
  | nil => intro st; rfl
  | cons p rest ih =>
      intro st
      obtain ⟨n1, n2⟩ := p
      rw [show Morphism.nodeLoop d c ((n1, n2) :: rest) st =
        Morphism.nodeLoop d c rest
          { st with
            fromDomNodes := st.fromDomNodes.set n1 (c.nodes.get n2)
            fromCodNodes := st.fromCodNodes.set n2 (d.nodes.get n1)
            eqDomNodes := st.eqDomNodes.set n1 st.numEquivClasses
            eqCodNodes := st.eqCodNodes.set n2 st.numEquivClasses
            numEquivClasses := st.numEquivClasses + 1 } from rfl, ih]
      simp [List.length_cons]
      omega

theorem Morphism.nodeLoop_eqDomNodes_entries (d c : Graph) :
    ∀ (pairs : List (String × String)) (st : MAssembleState),
      (pairs.map Prod.fst).Nodup →
      (∀ p ∈ pairs, p.1 ∉ st.eqDomNodes.keys) →
      (Morphism.nodeLoop d c pairs st).eqDomNodes.entries =
        st.eqDomNodes.entries ++
          (pairs.map Prod.fst).zip (List.range' st.numEquivClasses pairs.length) := by
  intro pairs
  induction pairs with
  | nil => intro st _ _; simp [Morphism.nodeLoop]
  | cons p rest ih =>
      intro st hn hfresh
      obtain ⟨n1, n2⟩ := p
      simp only [List.map_cons, List.nodup_cons] at hn
      have hfresh1 : n1 ∉ st.eqDomNodes.keys := hfresh (n1, n2) (List.mem_cons_self _ _)
      rw [show Morphism.nodeLoop d c ((n1, n2) :: rest) st =
        Morphism.nodeLoop d c rest
          { st with
            fromDomNodes := st.fromDomNodes.set n1 (c.nodes.get n2)
            fromCodNodes := st.fromCodNodes.set n2 (d.nodes.get n1)
            eqDomNodes := st.eqDomNodes.set n1 st.numEquivClasses
            eqCodNodes := st.eqCodNodes.set n2 st.numEquivClasses
            numEquivClasses := st.numEquivClasses + 1 } from rfl]
      rw [ih _ hn.2 ?fresh]
      case fresh =>
        intro p hp
        rw [Gmap.keys_set_fresh _ hfresh1]
        intro hmem
        rcases List.mem_append.mp hmem with h | h
        · exact hfresh p (List.mem_cons_of_mem _ hp) h
        · rcases List.mem_singleton.mp h with h
          exact hn.1 (h ▸ List.mem_map.mpr ⟨p, hp, rfl⟩)
      show (st.eqDomNodes.set n1 st.numEquivClasses).entries ++ _ = _
      rw [Gmap.entries_set_fresh _ hfresh1]
      rw [List.append_assoc]
      congr 1

theorem Morphism.nodeLoop_eqCodNodes_entries (d c : Graph) :
    ∀ (pairs : List (String × String)) (st : MAssembleState),
      (pairs.map Prod.snd).Nodup →
      (∀ p ∈ pairs, p.2 ∉ st.eqCodNodes.keys) →
      (Morphism.nodeLoop d c pairs st).eqCodNodes.entries =
        st.eqCodNodes.entries ++
          (pairs.map Prod.snd).zip (List.range' st.numEquivClasses pairs.length) := by
  intro pairs
  induction pairs with
  | nil => intro st _ _; simp [Morphism.nodeLoop]
  | cons p rest ih =>
      intro st hn hfresh
      obtain ⟨n1, n2⟩ := p
      simp only [List.map_cons, List.nodup_cons] at hn
      have hfresh1 : n2 ∉ st.eqCodNodes.keys := hfresh (n1, n2) (List.mem_cons_self _ _)
      rw [show Morphism.nodeLoop d c ((n1, n2) :: rest) st =
        Morphism.nodeLoop d c rest
          { st with
            fromDomNodes := st.fromDomNodes.set n1 (c.nodes.get n2)
            fromCodNodes := st.fromCodNodes.set n2 (d.nodes.get n1)
            eqDomNodes := st.eqDomNodes.set n1 st.numEquivClasses
            eqCodNodes := st.eqCodNodes.set n2 st.numEquivClasses
            numEquivClasses := st.numEquivClasses + 1 } from rfl]
      rw [ih _ hn.2 ?fresh]
      case fresh =>
        intro p hp
        rw [Gmap.keys_set_fresh _ hfresh1]
        intro hmem
        rcases List.mem_append.mp hmem with h | h
        · exact hfresh p (List.mem_cons_of_mem _ hp) h
        · rcases List.mem_singleton.mp h with h
          exact hn.1 (h ▸ List.mem_map.mpr ⟨p, hp, rfl⟩)
      show (st.eqCodNodes.set n2 st.numEquivClasses).entries ++ _ = _
      rw [Gmap.entries_set_fresh _ hfresh1]
      rw [List.append_assoc]
      congr 1

theorem Morphism.edgeLoop_eqDomEdges_entries (d c : Graph) :
    ∀ (pairs : List (Int × Int)) (st : MAssembleState),
      (pairs.map Prod.fst).Nodup →
      (∀ p ∈ pairs, p.1 ∉ st.eqDomEdges.keys) →
      (Morphism.edgeLoop d c pairs st).eqDomEdges.entries =
        st.eqDomEdges.entries ++
          (pairs.map Prod.fst).zip (List.range' st.numEquivClasses pairs.length) := by
  intro pairs
  induction pairs with
  | nil => intro st _ _; simp [Morphism.edgeLoop]
  | cons p rest ih =>
      intro st hn hfresh
      obtain ⟨e1, e2⟩ := p
      simp only [List.map_cons, List.nodup_cons] at hn
      have hfresh1 : e1 ∉ st.eqDomEdges.keys := hfresh (e1, e2) (List.mem_cons_self _ _)
      rw [show Morphism.edgeLoop d c ((e1, e2) :: rest) st =
        Morphism.edgeLoop d c rest
          { st with
            fromDomEdges := st.fromDomEdges.set e1 (c.edges.get e2)
            fromCodEdges := st.fromCodEdges.set e2 (d.edges.get e1)
            eqDomEdges := st.eqDomEdges.set e1 st.numEquivClasses
            eqCodEdges := st.eqCodEdges.set e2 st.numEquivClasses
            numEquivClasses := st.numEquivClasses + 1 } from rfl]
      rw [ih _ hn.2 ?fresh]
      case fresh =>
        intro p hp
        rw [Gmap.keys_set_fresh _ hfresh1]
        intro hmem
        rcases List.mem_append.mp hmem with h | h
        · exact hfresh p (List.mem_cons_of_mem _ hp) h
        · rcases List.mem_singleton.mp h with h
          exact hn.1 (h ▸ List.mem_map.mpr ⟨p, hp, rfl⟩)
      show (st.eqDomEdges.set e1 st.numEquivClasses).entries ++ _ = _
      rw [Gmap.entries_set_fresh _ hfresh1]
      rw [List.append_assoc]
      congr 1

theorem Morphism.edgeLoop_eqCodEdges_entries (d c : Graph) :
    ∀ (pairs : List (Int × Int)) (st : MAssembleState),
      (pairs.map Prod.snd).Nodup →
      (∀ p ∈ pairs, p.2 ∉ st.eqCodEdges.keys) →
      (Morphism.edgeLoop d c pairs st).eqCodEdges.entries =
        st.eqCodEdges.entries ++
          (pairs.map Prod.snd).zip (List.range' st.numEquivClasses pairs.length) := by
  intro pairs
  induction pairs with
  | nil => intro st _ _; simp [Morphism.edgeLoop]
  | cons p rest ih =>
      intro st hn hfresh
      obtain ⟨e1, e2⟩ := p
      simp only [List.map_cons, List.nodup_cons] at hn
      have hfresh1 : e2 ∉ st.eqCodEdges.keys := hfresh (e1, e2) (List.mem_cons_self _ _)
      rw [show Morphism.edgeLoop d c ((e1, e2) :: rest) st =
        Morphism.edgeLoop d c rest
          { st with
            fromDomEdges := st.fromDomEdges.set e1 (c.edges.get e2)
            fromCodEdges := st.fromCodEdges.set e2 (d.edges.get e1)
            eqDomEdges := st.eqDomEdges.set e1 st.numEquivClasses
            eqCodEdges := st.eqCodEdges.set e2 st.numEquivClasses
            numEquivClasses := st.numEquivClasses + 1 } from rfl]
      rw [ih _ hn.2 ?fresh]
      case fresh =>
        intro p hp
        rw [Gmap.keys_set_fresh _ hfresh1]
        intro hmem
        rcases List.mem_append.mp hmem with h | h
        · exact hfresh p (List.mem_cons_of_mem _ hp) h
        · rcases List.mem_singleton.mp h with h
          exact hn.1 (h ▸ List.mem_map.mpr ⟨p, hp, rfl⟩)
      show (st.eqCodEdges.set e2 st.numEquivClasses).entries ++ _ = _
      rw [Gmap.entries_set_fresh _ hfresh1]
      rw [List.append_assoc]
      congr 1

theorem Gmap.getEntries_zip_range' {K : Type} [DecidableEq K] (ks : List K) (k0 : ℕ)
    (hk : ks.Nodup) (i : ℕ) (hi : i < ks.length) :
    Gmap.getEntries (ks.zip (List.range' k0 ks.length)) ks[i] = some (k0 + i) := by
  apply Gmap.getEntries_of_entry_nodup
  · rw [List.map_fst_zip ks _ (by simp [List.length_range'])]
    exact hk
  · have hlen : i < (ks.zip (List.range' k0 ks.length)).length := by
      simp [List.length_zip, List.length_range']
      omega
    have hz : (ks.zip (List.range' k0 ks.length))[i] = (ks[i], k0 + i) := by
      rw [List.getElem_zip]
      have hr := @List.getElem_range' k0 ks.length 1 i (by simpa using hi)
      simp only [Nat.one_mul] at hr
      rw [hr]
    rw [← hz]
    exact List.getElem_mem hlen

theorem Morphism.assemble_class_entries (d c : Graph) (nm : List (String × String))
    (em : List (Int × Int))
    (h1 : (nm.map Prod.fst).Nodup) (h2 : (nm.map Prod.snd).Nodup)
    (h3 : (em.map Prod.fst).Nodup) (h4 : (em.map Prod.snd).Nodup) :
    (Morphism.assemble d c nm em).equivalenceClassFromDomain.nodes.entries =
        (nm.map Prod.fst).zip (List.range' 0 nm.length) ∧
    (Morphism.assemble d c nm em).equivalenceClassFromCodomain.nodes.entries =
        (nm.map Prod.snd).zip (List.range' 0 nm.length) ∧
    (Morphism.assemble d c nm em).equivalenceClassFromDomain.edges.entries =
        (em.map Prod.fst).zip (List.range' nm.length em.length) ∧
    (Morphism.assemble d c nm em).equivalenceClassFromCodomain.edges.entries =
        (em.map Prod.snd).zip (List.range' nm.length em.length) := by
  have hemptyS : ∀ k : String, k ∉ (Gmap.empty : Gmap String ℕ).keys := by
    intro k h
    cases h
  have hemptyI : ∀ k : Int, k ∉ (Gmap.empty : Gmap Int ℕ).keys := by
    intro k h
    cases h
  refine ⟨?_, ?_, ?_, ?_⟩
  · show (Morphism.edgeLoop d c em (Morphism.nodeLoop d c nm
      (MAssembleState.mk Gmap.empty Gmap.empty Gmap.empty Gmap.empty
        Gmap.empty Gmap.empty Gmap.empty Gmap.empty 0))).eqDomNodes.entries = _
    rw [Morphism.edgeLoop_eqDomNodes,
      Morphism.nodeLoop_eqDomNodes_entries d c nm _ h1 (fun p _ => hemptyS p.1)]
    rfl
  · show (Morphism.edgeLoop d c em (Morphism.nodeLoop d c nm
      (MAssembleState.mk Gmap.empty Gmap.empty Gmap.empty Gmap.empty
        Gmap.empty Gmap.empty Gmap.empty Gmap.empty 0))).eqCodNodes.entries = _
    rw [Morphism.edgeLoop_eqCodNodes,
      Morphism.nodeLoop_eqCodNodes_entries d c nm _ h2 (fun p _ => hemptyS p.2)]
    rfl
  · show (Morphism.edgeLoop d c em (Morphism.nodeLoop d c nm
      (MAssembleState.mk Gmap.empty Gmap.empty Gmap.empty Gmap.empty
        Gmap.empty Gmap.empty Gmap.empty Gmap.empty 0))).eqDomEdges.entries = _
    rw [Morphism.edgeLoop_eqDomEdges_entries d c em _ h3 ?fresh]
    case fresh =>
      intro p _
      rw [Morphism.nodeLoop_eqDomEdges]
      exact hemptyI p.1
    rw [Morphism.nodeLoop_eqDomEdges, Morphism.nodeLoop_numEquivClasses]
    simp [Gmap.empty]
  · show (Morphism.edgeLoop d c em (Morphism.nodeLoop d c nm
      (MAssembleState.mk Gmap.empty Gmap.empty Gmap.empty Gmap.empty
        Gmap.empty Gmap.empty Gmap.empty Gmap.empty 0))).eqCodEdges.entries = _
    rw [Morphism.edgeLoop_eqCodEdges_entries d c em _ h4 ?fresh]
    case fresh =>
      intro p _
      rw [Morphism.nodeLoop_eqCodEdges]
      exact hemptyI p.2
    rw [Morphism.nodeLoop_eqCodEdges, Morphism.nodeLoop_numEquivClasses]
    simp [Gmap.empty]

/-- C4: for a morphism assembled from pairwise distinct domain and codomain
ids, each pair gets one shared class index; node pairs get 0, 1, ... in
input order, then edge pairs continue from the number of node pairs, and the
class dictionaries carry exactly the indices 0 to total - 1 with no
repeats. -/
theorem morphism_class_indices (d c : Graph) (nm : List (String × String))
    (em : List (Int × Int))
    (h1 : (nm.map Prod.fst).Nodup) (h2 : (nm.map Prod.snd).Nodup)
    (h3 : (em.map Prod.fst).Nodup) (h4 : (em.map Prod.snd).Nodup) :
    (∀ i (hi : i < nm.length),
      (Morphism.assemble d c nm em).equivalenceClassFromDomain.nodes.get nm[i].1 =
        some i ∧
      (Morphism.assemble d c nm em).equivalenceClassFromCodomain.nodes.get nm[i].2 =
        some i) ∧
    (∀ j (hj : j < em.length),
      (Morphism.assemble d c nm em).equivalenceClassFromDomain.edges.get em[j].1 =
        some (nm.length + j) ∧
      (Morphism.assemble d c nm em).equivalenceClassFromCodomain.edges.get em[j].2 =
        some (nm.length + j)) ∧
    (Morphism.assemble d c nm em).equivalenceClassFromDomain.nodes.values ++
        (Morphism.assemble d c nm em).equivalenceClassFromDomain.edges.values =
      List.range (nm.length + em.length) ∧
    (Morphism.assemble d c nm em).equivalenceClassFromCodomain.nodes.values ++
        (Morphism.assemble d c nm em).equivalenceClassFromCodomain.edges.values =
      List.range (nm.length + em.length) := by
  obtain ⟨e1, e2, e3, e4⟩ := Morphism.assemble_class_entries d c nm em h1 h2 h3 h4
  have hvalues : ∀ {K : Type} [DecidableEq K] (ks : List K) (k0 n : ℕ), n = ks.length →
      (ks.zip (List.range' k0 n)).map Prod.snd = List.range' k0 n := by
    intro K _ ks k0 n hn
    subst hn
    exact List.map_snd_zip ks _ (by simp [List.length_range'])
  have hrange : List.range' 0 nm.length ++ List.range' nm.length em.length =
      List.range (nm.length + em.length) := by
    have := List.range'_append 0 nm.length em.length 1
    simp only [Nat.one_mul, Nat.zero_add] at this
    rw [this, List.range_eq_range', Nat.add_comm em.length nm.length]
  refine ⟨?_, ?_, ?_, ?_⟩
  · intro i hi
    constructor
    · show Gmap.getEntries _ _ = _
      rw [e1]
      have := Gmap.getEntries_zip_range' (nm.map Prod.fst) 0 h1 i (by simpa using hi)
      rw [List.getElem_map] at this
      simpa using this
    · show Gmap.getEntries _ _ = _
      rw [e2]
      have := Gmap.getEntries_zip_range' (nm.map Prod.snd) 0 h2 i (by simpa using hi)
      rw [List.getElem_map] at this
      simpa using this
  · intro j hj
    constructor
    · show Gmap.getEntries _ _ = _
      rw [e3]
      have := Gmap.getEntries_zip_range' (em.map Prod.fst) nm.length h3 j (by simpa using hj)
      rw [List.getElem_map] at this
      simpa using this
    · show Gmap.getEntries _ _ = _
      rw [e4]
      have := Gmap.getEntries_zip_range' (em.map Prod.snd) nm.length h4 j (by simpa using hj)
      rw [List.getElem_map] at this
      simpa using this
  · show (Morphism.assemble d c nm em).equivalenceClassFromDomain.nodes.entries.map _ ++
      (Morphism.assemble d c nm em).equivalenceClassFromDomain.edges.entries.map _ = _
    rw [e1, e3, hvalues _ _ _ (by simp), hvalues _ _ _ (by simp), hrange]
  · show (Morphism.assemble d c nm em).equivalenceClassFromCodomain.nodes.entries.map _ ++
      (Morphism.assemble d c nm em).equivalenceClassFromCodomain.edges.entries.map _ = _
    rw [e2, e4, hvalues _ _ _ (by simp), hvalues _ _ _ (by simp), hrange]

/-- C4 witness: on the one-node-pair morphism of the spec scenario, both
sides of the pair receive class index 0 and the class dictionaries carry
exactly the index 0. -/
theorem morphism_class_indices_witness :
    (Morphism.assemble exLHS exRHS [("floor", "floor")]
        []).equivalenceClassFromDomain.nodes.get "floor" = some 0 ∧
    (Morphism.assemble exLHS exRHS [("floor", "floor")]
        []).equivalenceClassFromCodomain.nodes.get "floor" = some 0 ∧
    (Morphism.assemble exLHS exRHS [("floor", "floor")]
        []).equivalenceClassFromCodomain.nodes.values ++
      (Morphism.assemble exLHS exRHS [("floor", "floor")]
        []).equivalenceClassFromCodomain.edges.values = List.range 1 := by
  have h := morphism_class_indices exLHS exRHS [("floor", "floor")] []
    (by decide) (by decide) (by decide) (by decide)
  refine ⟨(h.1 0 (by decide)).1, (h.1 0 (by decide)).2, h.2.2.2⟩

theorem Graph.Node.make_ignores_position (types : TypeGraph) (id ty : String)
    (x y x' y' rx ry : ℚ) :
    Graph.Node.make types (Graph.NodeStub.mk id ty x' y') rx ry =
      Graph.Node.make types (Graph.NodeStub.mk id ty x y) rx ry := rfl

theorem node_make_ok_spec {types : TypeGraph} {stub : Graph.NodeStub}
    {rx ry : ℚ} {node : Graph.Node}
    (h : Graph.Node.make types stub rx ry = Except.ok node) :
    node.id = stub.id ∧ node.x = rx ∧ node.y = ry ∧
    node.dragging = false ∧ node.pinned = false ∧ node.isFixed = false ∧
    types.nodes.get stub.type = some node.type := by
  unfold Graph.Node.make at h
  cases ht : types.nodes.get stub.type with
  | none => rw [ht] at h; cases h
  | some t =>
      rw [ht] at h
      dsimp only at h
      cases h
      refine ⟨rfl, rfl, rfl, rfl, rfl, rfl, ?_⟩
      rfl

theorem assembleNodesAux_get_frozen (types : TypeGraph) (rng : ℕ → ℚ) :
    ∀ (stubs : List Graph.NodeStub) (i0 : ℕ) (acc ns : Gmap String Graph.Node)
      (k : String),
      assembleNodesAux types rng stubs i0 acc = Except.ok ns →
      k ∉ stubs.map Graph.NodeStub.id → ns.get k = acc.get k := by
  intro stubs
  induction stubs with
  | nil =>
      intro i0 acc ns k h hk
      cases h
      rfl
  | cons stub rest ih =>
      intro i0 acc ns k h hk
      simp only [List.map_cons, List.mem_cons] at hk
      push_neg at hk
      unfold assembleNodesAux at h
      cases hmk : Graph.Node.make types stub (rng (2 * i0)) (rng (2 * i0 + 1)) with
      | error e => rw [hmk] at h; cases h
      | ok node =>
          rw [hmk] at h
          dsimp only at h
          rw [ih _ _ ns k h hk.2, Gmap.get_set_other _ _ (fun he => hk.1 he.symm)]

theorem assembleNodesAux_get (types : TypeGraph) (rng : ℕ → ℚ) :
    ∀ (stubs : List Graph.NodeStub) (i0 : ℕ) (acc ns : Gmap String Graph.Node),
      (stubs.map Graph.NodeStub.id).Nodup →
      assembleNodesAux types rng stubs i0 acc = Except.ok ns →
      ∀ i (hi : i < stubs.length), ∃ node,
        Graph.Node.make types stubs[i] (rng (2 * (i0 + i))) (rng (2 * (i0 + i) + 1)) =
          Except.ok node ∧
        ns.get stubs[i].id = some node := by
  intro stubs
  induction stubs with
  | nil => intro i0 acc ns _ h i hi; cases hi
  | cons stub rest ih =>
      intro i0 acc ns hn h i hi
      simp only [List.map_cons, List.nodup_cons] at hn
      unfold assembleNodesAux at h
      cases hmk : Graph.Node.make types stub (rng (2 * i0)) (rng (2 * i0 + 1)) with
      | error e => rw [hmk] at h; cases h
      | ok node =>
          rw [hmk] at h
          dsimp only at h
          cases i with
          | zero =>
              refine ⟨node, hmk, ?_⟩
              simp only [List.getElem_cons_zero]
              rw [assembleNodesAux_get_frozen types rng rest (i0 + 1) _ ns stub.id h hn.1]
              exact Gmap.get_set_self acc stub.id node
          | succ i =>
              have hi' : i < rest.length := by simpa using hi
              obtain ⟨node', hmk', hget'⟩ := ih (i0 + 1) _ ns hn.2 h i hi'
              refine ⟨node', ?_, ?_⟩
              · rw [show 2 * (i0 + (i + 1)) = 2 * (i0 + 1 + i) from by omega]
                simpa using hmk'
              · simpa using hget'

theorem assembleNodesAux_ignores_positions (types : TypeGraph) (rng : ℕ → ℚ) :
    ∀ (stubs stubs2 : List Graph.NodeStub), stubs2.length = stubs.length →
      (∀ i (h2 : i < stubs2.length) (h1 : i < stubs.length),
        stubs2[i].id = stubs[i].id ∧ stubs2[i].type = stubs[i].type) →
      ∀ (i0 : ℕ) (acc : Gmap String Graph.Node),
        assembleNodesAux types rng stubs2 i0 acc =
          assembleNodesAux types rng stubs i0 acc := by
  intro stubs
  induction stubs with
  | nil =>
      intro stubs2 hlen _ i0 acc
      rw [List.length_eq_zero.mp hlen]
  | cons stub rest ih =>
      intro stubs2 hlen hsame i0 acc
      cases stubs2 with
      | nil => cases hlen
      | cons stub2 rest2 =>
          obtain ⟨hid, hty⟩ := hsame 0 (by simp) (by simp)
          simp only [List.getElem_cons_zero] at hid hty
          obtain ⟨id2, ty2, x2, y2⟩ := stub2
          obtain ⟨id1, ty1, x1, y1⟩ := stub
          simp only at hid hty
          subst hid; subst hty
          unfold assembleNodesAux
          rw [Graph.Node.make_ignores_position types id2 ty2 x1 y1 x2 y2]
          cases hmk : Graph.Node.make types (Graph.NodeStub.mk id2 ty2 x1 y1)
              (rng (2 * i0)) (rng (2 * i0 + 1)) with
          | error e => rfl
          | ok node =>
              dsimp only
              refine ih rest2 (by simpa using hlen) ?_ (i0 + 1) _
              intro i h2 h1
              have := hsame (i + 1) (by simpa using h2) (by simpa using h1)
              simpa using this

/-- C9: every node accepted by graph assembly has its stub coordinates
overwritten by two fresh samples of the random generator (samples 2i and
2i+1 for the i-th stub), so the assembled nodes do not depend on the stub
coordinates at all, and every node starts with dragging and pinned cleared,
hence not fixed. -/
theorem node_positions_random (types : TypeGraph) (stubs : List Graph.NodeStub)
    (rng : ℕ → ℚ) (hids : (stubs.map Graph.NodeStub.id).Nodup) :
    (∀ ns, assembleNodes types stubs rng = Except.ok ns →
      ∀ i (hi : i < stubs.length), ∃ node,
        ns.get stubs[i].id = some node ∧
        node.x = rng (2 * i) ∧ node.y = rng (2 * i + 1) ∧
        node.dragging = false ∧ node.pinned = false ∧ node.isFixed = false) ∧
    (∀ stubs2 : List Graph.NodeStub, stubs2.length = stubs.length →
      (∀ i (h2 : i < stubs2.length) (h1 : i < stubs.length),
        stubs2[i].id = stubs[i].id ∧ stubs2[i].type = stubs[i].type) →
      assembleNodes types stubs2 rng = assembleNodes types stubs rng) := by
  constructor
  · intro ns h i hi
    obtain ⟨node, hmk, hget⟩ :=
      assembleNodesAux_get types rng stubs 0 Gmap.empty ns hids h i hi
    obtain ⟨-, hx, hy, hd, hp, hf, -⟩ := node_make_ok_spec hmk
    exact ⟨node, hget, by simpa using hx, by simpa using hy, hd, hp, hf⟩
  · intro stubs2 hlen hsame
    exact assembleNodesAux_ignores_positions types rng stubs stubs2 hlen hsame 0 Gmap.empty

/-- C9 witness: assembling a single elevator node with stub coordinates
(55, 66) under the sample stream n maps to n places it at (0, 1) with both
flags cleared, and changing the stub coordinates to (99, 42) leaves the
assembly result unchanged. -/
theorem node_positions_random_witness :
    (∃ node, ((assembleNodes exTypes [Graph.NodeStub.mk "a" "elevator" 55 66]
        exRng).toOption.getD Gmap.empty).get "a" = some node ∧
      node.x = 0 ∧ node.y = 1 ∧ node.dragging = false ∧ node.pinned = false ∧
      node.isFixed = false) ∧
    assembleNodes exTypes [Graph.NodeStub.mk "a" "elevator" 99 42] exRng =
      assembleNodes exTypes [Graph.NodeStub.mk "a" "elevator" 55 66] exRng := by
  have h := node_positions_random exTypes [Graph.NodeStub.mk "a" "elevator" 55 66]
    exRng (by decide)
  constructor
  · obtain ⟨node, hget, hx, hy, hd, hp, hf⟩ :=
      h.1 ((assembleNodes exTypes [Graph.NodeStub.mk "a" "elevator" 55 66]
        exRng).toOption.getD Gmap.empty) rfl 0 (by decide)
    exact ⟨node, hget, by simpa [exRng] using hx, by simpa [exRng] using hy, hd, hp, hf⟩
  · refine h.2 [Graph.NodeStub.mk "a" "elevator" 99 42] rfl ?_
    intro i h2 h1
    have : i = 0 := by simpa using h1
    subst this
    exact ⟨rfl, rfl⟩

theorem Graph.assemble_ok_parts {types : TypeGraph} {nstubs : List Graph.NodeStub}
    {estubs : List Graph.EdgeStub} {rng : ℕ → ℚ} {g : Graph}
    (h : Graph.assemble types nstubs estubs rng = Except.ok g) :
    ∃ ns es, assembleNodes types nstubs rng = Except.ok ns ∧
      assembleEdges types ns estubs = Except.ok es ∧ g = Graph.mk types ns es := by
  unfold Graph.assemble at h
  cases hns : assembleNodes types nstubs rng with
  | error e => rw [hns] at h; cases h
  | ok ns =>
      rw [hns] at h
      dsimp only at h
      cases hes : assembleEdges types ns estubs with
      | error e => rw [hes] at h; cases h
      | ok es =>
          rw [hes] at h
          dsimp only at h
          cases h
          refine ⟨ns, es, ?_, ?_, rfl⟩ <;> first | rfl | assumption

theorem assembleNodesAux_entry_id (types : TypeGraph) (rng : ℕ → ℚ) :
    ∀ (stubs : List Graph.NodeStub) (i0 : ℕ) (acc ns : Gmap String Graph.Node),
      (∀ p ∈ acc.entries, (p.2 : Graph.Node).id = p.1) →
      assembleNodesAux types rng stubs i0 acc = Except.ok ns →
      ∀ p ∈ ns.entries, (p.2 : Graph.Node).id = p.1 := by
  intro stubs
  induction stubs with
  | nil =>
      intro i0 acc ns hacc h
      cases h
      exact hacc
  | cons stub rest ih =>
      intro i0 acc ns hacc h
      unfold assembleNodesAux at h
      cases hmk : Graph.Node.make types stub (rng (2 * i0)) (rng (2 * i0 + 1)) with
      | error e => rw [hmk] at h; cases h
      | ok node =>
          rw [hmk] at h
          dsimp only at h
          refine ih (i0 + 1) _ ns ?_ h
          intro p hp
          rcases Gmap.mem_setEntries hp with h' | h'
          · exact hacc p h'
          · obtain ⟨hid, -, -, -, -, -, -⟩ := node_make_ok_spec hmk
            rw [h']
            exact hid

theorem assembled_edges_endpoints {types : TypeGraph} {ns : Gmap String Graph.Node}
    (hid : ∀ p ∈ ns.entries, (p.2 : Graph.Node).id = p.1)
    {estubs : List Graph.EdgeStub} {es : Gmap Int Graph.Edge}
    (hes : assembleEdgesAux types ns estubs Gmap.empty = Except.ok es) :
    ∀ e ∈ es.values, ns.get e.source.id = some e.source ∧
      ns.get e.target.id = some e.target := by
  refine assembleEdgesAux_values_prop types ns
    (fun e => ns.get e.source.id = some e.source ∧ ns.get e.target.id = some e.target)
    ?_ estubs Gmap.empty es (by intro e he; cases he) hes
  intro stub edge hmk
  obtain ⟨et, sn, tn, -, hsn, htn, -, hedge⟩ := edge_make_ok_spec hmk
  subst hedge
  constructor
  · have hmem := Gmap.getEntries_mem hsn
    have : sn.id = stub.source := hid (stub.source, sn) hmem
    show ns.get sn.id = some sn
    rw [this]
    exact hsn
  · have hmem := Gmap.getEntries_mem htn
    have : tn.id = stub.target := hid (stub.target, tn) hmem
    show ns.get tn.id = some tn
    rw [this]
    exact htn

theorem degreeIncr_get_defined {m : Gmap String (Option ℕ)} {k : String} {a : ℕ}
    (h : m.get k = some (some a)) (k' : String) :
    (degreeIncr m k').get k = some (some (if k' = k then a + 1 else a)) := by
  by_cases hk : k' = k
  · subst hk
    unfold degreeIncr
    rw [h]
    dsimp only
    rw [Gmap.get_set_self]
    simp
  · unfold degreeIncr
    cases hm : m.get k' with
    | none =>
        dsimp only
        rw [Gmap.get_set_other _ _ hk, h]
        simp [hk]
    | some v =>
        cases v with
        | none =>
            dsimp only
            rw [Gmap.get_set_other _ _ hk, h]
            simp [hk]
        | some w =>
            dsimp only
            rw [Gmap.get_set_other _ _ hk, h]
            simp [hk]

theorem degreeFold_get :
    ∀ (edges : List Graph.Edge) (m : Gmap String (Option ℕ)) (k : String) (a : ℕ),
      m.get k = some (some a) →
      (edges.foldl (fun m e => degreeIncr (degreeIncr m e.source.id) e.target.id)
          m).get k = some (some (a + incidentCount k edges)) := by
  intro edges
  induction edges with
  | nil =>
      intro m k a h
      simpa [incidentCount] using h
  | cons e rest ih =>
      intro m k a h
      rw [List.foldl_cons]
      have h1 := degreeIncr_get_defined h e.source.id
      have h2 := degreeIncr_get_defined h1 e.target.id
      rw [ih _ k _ h2]
      simp only [Option.some.injEq]
      simp [incidentCount, List.countP_cons]
      split_ifs <;> omega

theorem degreeInit_get :
    ∀ (nodes : List Graph.Node) (acc : Gmap String (Option ℕ)) (k : String),
      (nodes.foldl (fun m node => m.set node.id (some 0)) acc).get k =
        if k ∈ nodes.map Graph.Node.id then some (some 0) else acc.get k := by
  intro nodes
  induction nodes with
  | nil => intro acc k; simp
  | cons n rest ih =>
      intro acc k
      rw [List.foldl_cons, ih]
      by_cases hk : k ∈ rest.map Graph.Node.id
      · simp [hk]
      · by_cases hn : n.id = k
        · subst hn
          simp [hk, Gmap.get_set_self]
        · simp [hk, Gmap.get_set_other _ _ hn]
          rw [if_neg (fun he => hn he.symm)]

theorem assembled_graph_degree {types : TypeGraph} {nstubs : List Graph.NodeStub}
    {estubs : List Graph.EdgeStub} {rng : ℕ → ℚ} {g : Graph}
    (h : Graph.assemble types nstubs estubs rng = Except.ok g) :
    ∀ e ∈ g.edges.values,
      degreeVal (degreeTable g.nodes.values g.edges.values) e.source.id =
        some (incidentCount e.source.id g.edges.values) ∧
      degreeVal (degreeTable g.nodes.values g.edges.values) e.target.id =
        some (incidentCount e.target.id g.edges.values) ∧
      1 ≤ incidentCount e.source.id g.edges.values ∧
      1 ≤ incidentCount e.target.id g.edges.values := by
  obtain ⟨ns, es, hns, hes, hg⟩ := Graph.assemble_ok_parts h
  subst hg
  have hid : ∀ p ∈ ns.entries, (p.2 : Graph.Node).id = p.1 :=
    assembleNodesAux_entry_id types rng nstubs 0 Gmap.empty ns
      (by intro p hp; cases hp) hns
  have hend := assembled_edges_endpoints hid hes
  intro e he
  obtain ⟨hsrc, htgt⟩ := hend e he
  have hmemS : e.source.id ∈ ns.values.map Graph.Node.id :=
    List.mem_map.mpr ⟨e.source, Gmap.mem_values_of_get hsrc, rfl⟩
  have hmemT : e.target.id ∈ ns.values.map Graph.Node.id :=
    List.mem_map.mpr ⟨e.target, Gmap.mem_values_of_get htgt, rfl⟩
  have hinitS : ((ns.values.foldl (fun m node => m.set node.id (some 0))
      Gmap.empty).get e.source.id) = some (some 0) := by
    rw [degreeInit_get]
    simp [hmemS]
  have hinitT : ((ns.values.foldl (fun m node => m.set node.id (some 0))
      Gmap.empty).get e.target.id) = some (some 0) := by
    rw [degreeInit_get]
    simp [hmemT]
  have hfoldS := degreeFold_get es.values _ e.source.id 0 hinitS
  have hfoldT := degreeFold_get es.values _ e.target.id 0 hinitT
  have hcountS : 1 ≤ incidentCount e.source.id es.values := by
    have : 0 < es.values.countP (fun e' => decide (e'.source.id = e.source.id)) :=
      List.countP_pos_iff.mpr ⟨e, he, by simp⟩
    unfold incidentCount
    omega
  have hcountT : 1 ≤ incidentCount e.target.id es.values := by
    have : 0 < es.values.countP (fun e' => decide (e'.target.id = e.target.id)) :=
      List.countP_pos_iff.mpr ⟨e, he, by simp⟩
    unfold incidentCount
    omega
  refine ⟨?_, ?_, hcountS, hcountT⟩
  · show degreeVal (degreeTable ns.values es.values) e.source.id = _
    unfold degreeVal degreeTable
    rw [hfoldS]
    simp
  · show degreeVal (degreeTable ns.values es.values) e.target.id = _
    unfold degreeVal degreeTable
    rw [hfoldT]
    simp

theorem applyEdgeParamEvents_link (deg : Gmap String (Option ℕ)) :
    ∀ (evs : List EdgeParamEvent) (L S : ℚ),
      applyEdgeParamEvents deg
        (LayForce.link (edgeDistance L) (makeEdgeStrength deg S)) evs =
      LayForce.link (edgeDistance (curEdgeLength L evs))
        (makeEdgeStrength deg (curEdgeStrength S evs)) := by
  intro evs
  induction evs with
  | nil => intro L S; rfl
  | cons ev rest ih =>
      intro L S
      cases ev with
      | setLength l => exact ih l S
      | setStrength s => exact ih L s

/-- C8: the edge-attraction force of an assembled graph uses, for every
edge, the rest length configured edge length plus both endpoint type radii,
and the strength configured edge strength divided by the smaller endpoint
degree, where the degree of a node counts its incidences among the edges of
the graph; both formulas continue to hold after any sequence of edgeLength
and edgeStrength changes through the parameter store. -/
theorem edge_attraction_formulas (config : Config) (types : TypeGraph)
    (nstubs : List Graph.NodeStub) (estubs : List Graph.EdgeStub)
    (rng : ℕ → ℚ) (g : Graph)
    (h : Graph.assemble types nstubs estubs rng = Except.ok g)
    (evs : List EdgeParamEvent) (e : Graph.Edge) (he : e ∈ g.edges.values) :
    ∃ dist str,
      applyEdgeParamEvents (degreeTable g.nodes.values g.edges.values)
        (makeEdgeAttraction config g.nodes.values g.edges.values) evs =
        LayForce.link dist str ∧
      dist e = curEdgeLength config.edgeLength evs +
        e.source.type.radius + e.target.type.radius ∧
      str e = some (curEdgeStrength config.edgeStrength evs /
        min (incidentCount e.source.id g.edges.values : ℚ)
            (incidentCount e.target.id g.edges.values : ℚ)) := by
  obtain ⟨hdegS, hdegT, -, -⟩ := assembled_graph_degree h e he
  refine ⟨edgeDistance (curEdgeLength config.edgeLength evs),
    makeEdgeStrength (degreeTable g.nodes.values g.edges.values)
      (curEdgeStrength config.edgeStrength evs), ?_, rfl, ?_⟩
  · exact applyEdgeParamEvents_link _ evs config.edgeLength config.edgeStrength
  · unfold makeEdgeStrength
    rw [hdegS, hdegT]
    rfl

/-- C8 witness: on the example graph with one on edge of endpoint radii 20
and 20 and both endpoint degrees 1, after setting edgeLength to 7 and then
edgeStrength to 2, the installed rest length is 7 + 20 + 20 = 47 and the
installed strength is 2 / 1 = 2. -/
theorem edge_attraction_formulas_witness :
    ∃ dist str,
      applyEdgeParamEvents (degreeTable exRHS.nodes.values exRHS.edges.values)
        (makeEdgeAttraction GraphLayouter.defaultConfiguration
          exRHS.nodes.values exRHS.edges.values)
        [EdgeParamEvent.setLength 7, EdgeParamEvent.setStrength 2] =
        LayForce.link dist str ∧
      dist exEdge = 47 ∧ str exEdge = some 2 := by
  obtain ⟨dist, str, happ, hdist, hstr⟩ :=
    edge_attraction_formulas GraphLayouter.defaultConfiguration exTypes
      [Graph.NodeStub.mk "floor" "floor" 0 0, Graph.NodeStub.mk "e1" "elevator" 0 0]
      [Graph.EdgeStub.mk 1 "on" "e1" "floor"] exRng exRHS rfl
      [EdgeParamEvent.setLength 7, EdgeParamEvent.setStrength 2] exEdge
      (by rw [show exRHS.edges.values = [exEdge] from rfl]
          exact List.mem_singleton.mpr rfl)
  refine ⟨dist, str, happ, ?_, ?_⟩
  · rw [hdist]
    rw [show curEdgeLength GraphLayouter.defaultConfiguration.edgeLength
        [EdgeParamEvent.setLength 7, EdgeParamEvent.setStrength 2] = 7 from rfl,
      show exEdge.source.type.radius = 20 from rfl,
      show exEdge.target.type.radius = 20 from rfl]
    norm_num
  · rw [hstr]
    rw [show curEdgeStrength GraphLayouter.defaultConfiguration.edgeStrength
        [EdgeParamEvent.setLength 7, EdgeParamEvent.setStrength 2] = 2 from rfl,
      show incidentCount exEdge.source.id exRHS.edges.values = 1 from rfl,
      show incidentCount exEdge.target.id exRHS.edges.values = 1 from rfl]
    norm_num

/-- C10: in the degree dictionary built for an assembled graph, both
endpoints of every edge have a defined degree of at least 1 (each edge
increments both of its endpoint counts), so the per-edge strength division
never divides by zero. -/
theorem degree_min_positive (types : TypeGraph) (nstubs : List Graph.NodeStub)
    (estubs : List Graph.EdgeStub) (rng : ℕ → ℚ) (g : Graph)
    (h : Graph.assemble types nstubs estubs rng = Except.ok g)
    (e : Graph.Edge) (he : e ∈ g.edges.values) :
    ∃ d1 d2 : ℕ,
      degreeVal (degreeTable g.nodes.values g.edges.values) e.source.id = some d1 ∧
      degreeVal (degreeTable g.nodes.values g.edges.values) e.target.id = some d2 ∧
      1 ≤ d1 ∧ 1 ≤ d2 ∧ min (d1 : ℚ) (d2 : ℚ) ≠ 0 := by
  obtain ⟨hdegS, hdegT, hc1, hc2⟩ := assembled_graph_degree h e he
  refine ⟨incidentCount e.source.id g.edges.values,
    incidentCount e.target.id g.edges.values, hdegS, hdegT, hc1, hc2, ?_⟩
  have h1 : (1 : ℚ) ≤ (incidentCount e.source.id g.edges.values : ℚ) := by
    exact_mod_cast hc1
  have h2 : (1 : ℚ) ≤ (incidentCount e.target.id g.edges.values : ℚ) := by
    exact_mod_cast hc2
  have := le_min h1 h2
  intro hzero
  rw [hzero] at this
  linarith

/-- C10 witness: on the example graph, both endpoints of the on edge have
degree 1 and the minimum is nonzero. -/
theorem degree_min_positive_witness :
    ∃ d1 d2 : ℕ,
      degreeVal (degreeTable exRHS.nodes.values exRHS.edges.values)
        exEdge.source.id = some d1 ∧
      degreeVal (degreeTable exRHS.nodes.values exRHS.edges.values)
        exEdge.target.id = some d2 ∧
      1 ≤ d1 ∧ 1 ≤ d2 ∧ min (d1 : ℚ) (d2 : ℚ) ≠ 0 :=
  degree_min_positive exTypes
    [Graph.NodeStub.mk "floor" "floor" 0 0, Graph.NodeStub.mk "e1" "elevator" 0 0]
    [Graph.EdgeStub.mk 1 "on" "e1" "floor"] exRng exRHS rfl exEdge
    (by rw [show exRHS.edges.values = [exEdge] from rfl]
        exact List.mem_singleton.mpr rfl)

theorem Gmap.present_after_set {K V : Type} [DecidableEq K] (m : Gmap K V)
    (k' k : K) (v' : V) (h : ∃ v, m.get k = some v) :
    ∃ v, (m.set k' v').get k = some v := by
  by_cases hk : k' = k
  · subst hk
    exact ⟨v', Gmap.get_set_self m k' v'⟩
  · obtain ⟨v, hv⟩ := h
    refine ⟨v, ?_⟩
    rw [Gmap.get_set_other m v' hk]
    exact hv

theorem Morphism.nodeLoop_present (d c : Graph) :
    ∀ (pairs : List (String × String)) (st : MAssembleState),
      (∀ k, (∃ v, st.fromDomNodes.get k = some v) →
        ∃ v, (Morphism.nodeLoop d c pairs st).fromDomNodes.get k = some v) ∧
      (∀ k, (∃ v, st.fromCodNodes.get k = some v) →
        ∃ v, (Morphism.nodeLoop d c pairs st).fromCodNodes.get k = some v) ∧
      (∀ k, (∃ v, st.eqDomNodes.get k = some v) →
        ∃ v, (Morphism.nodeLoop d c pairs st).eqDomNodes.get k = some v) ∧
      (∀ k, (∃ v, st.eqCodNodes.get k = some v) →
        ∃ v, (Morphism.nodeLoop d c pairs st).eqCodNodes.get k = some v) := by
  intro pairs
  induction pairs with
  | nil => intro st; exact ⟨fun k h => h, fun k h => h, fun k h => h, fun k h => h⟩
  | cons p rest ih =>
      intro st
      obtain ⟨n1, n2⟩ := p
      rw [show Morphism.nodeLoop d c ((n1, n2) :: rest) st =
        Morphism.nodeLoop d c rest
          { st with
            fromDomNodes := st.fromDomNodes.set n1 (c.nodes.get n2)
            fromCodNodes := st.fromCodNodes.set n2 (d.nodes.get n1)
            eqDomNodes := st.eqDomNodes.set n1 st.numEquivClasses
            eqCodNodes := st.eqCodNodes.set n2 st.numEquivClasses
            numEquivClasses := st.numEquivClasses + 1 } from rfl]
      refine ⟨?_, ?_, ?_, ?_⟩
      · intro k h
        exact (ih _).1 k (Gmap.present_after_set st.fromDomNodes n1 k _ h)
      · intro k h
        exact (ih _).2.1 k (Gmap.present_after_set st.fromCodNodes n2 k _ h)
      · intro k h
        exact (ih _).2.2.1 k (Gmap.present_after_set st.eqDomNodes n1 k _ h)
      · intro k h
        exact (ih _).2.2.2 k (Gmap.present_after_set st.eqCodNodes n2 k _ h)

theorem Morphism.edgeLoop_present (d c : Graph) :
    ∀ (pairs : List (Int × Int)) (st : MAssembleState),
      (∀ k, (∃ v, st.fromDomEdges.get k = some v) →
        ∃ v, (Morphism.edgeLoop d c pairs st).fromDomEdges.get k = some v) ∧
      (∀ k, (∃ v, st.fromCodEdges.get k = some v) →
        ∃ v, (Morphism.edgeLoop d c pairs st).fromCodEdges.get k = some v) ∧
      (∀ k, (∃ v, st.eqDomEdges.get k = some v) →
        ∃ v, (Morphism.edgeLoop d c pairs st).eqDomEdges.get k = some v) ∧
      (∀ k, (∃ v, st.eqCodEdges.get k = some v) →
        ∃ v, (Morphism.edgeLoop d c pairs st).eqCodEdges.get k = some v) := by
  intro pairs
  induction pairs with
  | nil => intro st; exact ⟨fun k h => h, fun k h => h, fun k h => h, fun k h => h⟩
  | cons p rest ih =>
      intro st
      obtain ⟨e1, e2⟩ := p
      rw [show Morphism.edgeLoop d c ((e1, e2) :: rest) st =
        Morphism.edgeLoop d c rest
          { st with
            fromDomEdges := st.fromDomEdges.set e1 (c.edges.get e2)
            fromCodEdges := st.fromCodEdges.set e2 (d.edges.get e1)
            eqDomEdges := st.eqDomEdges.set e1 st.numEquivClasses
            eqCodEdges := st.eqCodEdges.set e2 st.numEquivClasses
            numEquivClasses := st.numEquivClasses + 1 } from rfl]
      refine ⟨?_, ?_, ?_, ?_⟩
      · intro k h
        exact (ih _).1 k (Gmap.present_after_set st.fromDomEdges e1 k _ h)
      · intro k h
        exact (ih _).2.1 k (Gmap.present_after_set st.fromCodEdges e2 k _ h)
      · intro k h
        exact (ih _).2.2.1 k (Gmap.present_after_set st.eqDomEdges e1 k _ h)
      · intro k h
        exact (ih _).2.2.2 k (Gmap.present_after_set st.eqCodEdges e2 k _ h)

theorem Morphism.nodeLoop_covers (d c : Graph) :
    ∀ (pairs : List (String × String)) (st : MAssembleState) (q : String × String),
      q ∈ pairs →
      (∃ v, (Morphism.nodeLoop d c pairs st).fromDomNodes.get q.1 = some v) ∧
      (∃ v, (Morphism.nodeLoop d c pairs st).fromCodNodes.get q.2 = some v) ∧
      (∃ k, (Morphism.nodeLoop d c pairs st).eqDomNodes.get q.1 = some k) ∧
      (∃ k, (Morphism.nodeLoop d c pairs st).eqCodNodes.get q.2 = some k) := by
  intro pairs
  induction pairs with
  | nil => intro st q hq; cases hq
  | cons p rest ih =>
      intro st q hq
      obtain ⟨n1, n2⟩ := p
      rw [show Morphism.nodeLoop d c ((n1, n2) :: rest) st =
        Morphism.nodeLoop d c rest
          { st with
            fromDomNodes := st.fromDomNodes.set n1 (c.nodes.get n2)
            fromCodNodes := st.fromCodNodes.set n2 (d.nodes.get n1)
            eqDomNodes := st.eqDomNodes.set n1 st.numEquivClasses
            eqCodNodes := st.eqCodNodes.set n2 st.numEquivClasses
            numEquivClasses := st.numEquivClasses + 1 } from rfl]
      rcases List.mem_cons.mp hq with h | h
      · subst h
        refine ⟨?_, ?_, ?_, ?_⟩
        · exact (Morphism.nodeLoop_present d c rest _).1 n1
            ⟨_, Gmap.get_set_self st.fromDomNodes n1 _⟩
        · exact (Morphism.nodeLoop_present d c rest _).2.1 n2
            ⟨_, Gmap.get_set_self st.fromCodNodes n2 _⟩
        · exact (Morphism.nodeLoop_present d c rest _).2.2.1 n1
            ⟨_, Gmap.get_set_self st.eqDomNodes n1 _⟩
        · exact (Morphism.nodeLoop_present d c rest _).2.2.2 n2
            ⟨_, Gmap.get_set_self st.eqCodNodes n2 _⟩
      · exact ih _ q h

theorem Morphism.edgeLoop_covers (d c : Graph) :
    ∀ (pairs : List (Int × Int)) (st : MAssembleState) (q : Int × Int),
      q ∈ pairs →
      (∃ v, (Morphism.edgeLoop d c pairs st).fromDomEdges.get q.1 = some v) ∧
      (∃ v, (Morphism.edgeLoop d c pairs st).fromCodEdges.get q.2 = some v) ∧
      (∃ k, (Morphism.edgeLoop d c pairs st).eqDomEdges.get q.1 = some k) ∧
      (∃ k, (Morphism.edgeLoop d c pairs st).eqCodEdges.get q.2 = some k) := by
  intro pairs
  induction pairs with
  | nil => intro st q hq; cases hq
  | cons p rest ih =>
      intro st q hq
      obtain ⟨e1, e2⟩ := p
      rw [show Morphism.edgeLoop d c ((e1, e2) :: rest) st =
        Morphism.edgeLoop d c rest
          { st with
            fromDomEdges := st.fromDomEdges.set e1 (c.edges.get e2)
            fromCodEdges := st.fromCodEdges.set e2 (d.edges.get e1)
            eqDomEdges := st.eqDomEdges.set e1 st.numEquivClasses
            eqCodEdges := st.eqCodEdges.set e2 st.numEquivClasses
            numEquivClasses := st.numEquivClasses + 1 } from rfl]
      rcases List.mem_cons.mp hq with h | h
      · subst h
        refine ⟨?_, ?_, ?_, ?_⟩
        · exact (Morphism.edgeLoop_present d c rest _).1 e1
            ⟨_, Gmap.get_set_self st.fromDomEdges e1 _⟩
        · exact (Morphism.edgeLoop_present d c rest _).2.1 e2
            ⟨_, Gmap.get_set_self st.fromCodEdges e2 _⟩
        · exact (Morphism.edgeLoop_present d c rest _).2.2.1 e1
            ⟨_, Gmap.get_set_self st.eqDomEdges e1 _⟩
        · exact (Morphism.edgeLoop_present d c rest _).2.2.2 e2
            ⟨_, Gmap.get_set_self st.eqCodEdges e2 _⟩
      · exact ih _ q h

theorem Morphism.edgeLoop_fromDomNodes (d c : Graph) :
    ∀ (pairs : List (Int × Int)) (st : MAssembleState),
      (Morphism.edgeLoop d c pairs st).fromDomNodes = st.fromDomNodes := by
  intro pairs
  induction pairs with
  | nil => intro st; rfl
  | cons p rest ih =>
      intro st
      obtain ⟨e1, e2⟩ := p
      exact ih _

theorem Morphism.edgeLoop_fromCodNodes (d c : Graph) :
    ∀ (pairs : List (Int × Int)) (st : MAssembleState),
      (Morphism.edgeLoop d c pairs st).fromCodNodes = st.fromCodNodes := by
  intro pairs
  induction pairs with
  | nil => intro st; rfl
  | cons p rest ih =>
      intro st
      obtain ⟨e1, e2⟩ := p
      exact ih _

theorem Morphism.nodeLoop_fromDomEdges (d c : Graph) :
    ∀ (pairs : List (String × String)) (st : MAssembleState),
      (Morphism.nodeLoop d c pairs st).fromDomEdges = st.fromDomEdges := by
  intro pairs
  induction pairs with
  | nil => intro st; rfl
  | cons p rest ih =>
      intro st
      obtain ⟨n1, n2⟩ := p
      exact ih _

theorem Morphism.nodeLoop_fromCodEdges (d c : Graph) :
    ∀ (pairs : List (String × String)) (st : MAssembleState),
      (Morphism.nodeLoop d c pairs st).fromCodEdges = st.fromCodEdges := by
  intro pairs
  induction pairs with
  | nil => intro st; rfl
  | cons p rest ih =>
      intro st
      obtain ⟨n1, n2⟩ := p
      exact ih _

theorem Morphism.nodeLoop_fromDom_raw (d c : Graph) (NM : List (String × String)) :
    ∀ (pairs : List (String × String)) (st : MAssembleState),
      (∀ q ∈ pairs, q ∈ NM) →
      (∀ p ∈ st.fromDomNodes.entries, ∃ n2, (p.1, n2) ∈ NM ∧ p.2 = c.nodes.get n2) →
      ∀ p ∈ (Morphism.nodeLoop d c pairs st).fromDomNodes.entries,
        ∃ n2, (p.1, n2) ∈ NM ∧ p.2 = c.nodes.get n2 := by
  intro pairs
  induction pairs with
  | nil => intro st _ hinv; exact hinv
  | cons hd rest ih =>
      intro st hsub hinv
      obtain ⟨n1, n2⟩ := hd
      rw [show Morphism.nodeLoop d c ((n1, n2) :: rest) st =
        Morphism.nodeLoop d c rest
          { st with
            fromDomNodes := st.fromDomNodes.set n1 (c.nodes.get n2)
            fromCodNodes := st.fromCodNodes.set n2 (d.nodes.get n1)
            eqDomNodes := st.eqDomNodes.set n1 st.numEquivClasses
            eqCodNodes := st.eqCodNodes.set n2 st.numEquivClasses
            numEquivClasses := st.numEquivClasses + 1 } from rfl]
      refine ih _ (fun q hq => hsub q (List.mem_cons_of_mem _ hq)) ?_
      intro p hp
      rcases Gmap.mem_setEntries hp with h | h
      · exact hinv p h
      · subst h
        exact ⟨n2, hsub (n1, n2) (List.mem_cons_self _ _), rfl⟩

theorem Morphism.nodeLoop_fromCod_raw (d c : Graph) (NM : List (String × String)) :
    ∀ (pairs : List (String × String)) (st : MAssembleState),
      (∀ q ∈ pairs, q ∈ NM) →
      (∀ p ∈ st.fromCodNodes.entries, ∃ n1, (n1, p.1) ∈ NM ∧ p.2 = d.nodes.get n1) →
      ∀ p ∈ (Morphism.nodeLoop d c pairs st).fromCodNodes.entries,
        ∃ n1, (n1, p.1) ∈ NM ∧ p.2 = d.nodes.get n1 := by
  intro pairs
  induction pairs with
  | nil => intro st _ hinv; exact hinv
  | cons hd rest ih =>
      intro st hsub hinv
      obtain ⟨n1, n2⟩ := hd
      rw [show Morphism.nodeLoop d c ((n1, n2) :: rest) st =
        Morphism.nodeLoop d c rest
          { st with
            fromDomNodes := st.fromDomNodes.set n1 (c.nodes.get n2)
            fromCodNodes := st.fromCodNodes.set n2 (d.nodes.get n1)
            eqDomNodes := st.eqDomNodes.set n1 st.numEquivClasses
            eqCodNodes := st.eqCodNodes.set n2 st.numEquivClasses
            numEquivClasses := st.numEquivClasses + 1 } from rfl]
      refine ih _ (fun q hq => hsub q (List.mem_cons_of_mem _ hq)) ?_
      intro p hp
      rcases Gmap.mem_setEntries hp with h | h
      · exact hinv p h
      · subst h
        exact ⟨n1, hsub (n1, n2) (List.mem_cons_self _ _), rfl⟩

theorem Morphism.edgeLoop_fromDom_raw (d c : Graph) (EM : List (Int × Int)) :
    ∀ (pairs : List (Int × Int)) (st : MAssembleState),
      (∀ q ∈ pairs, q ∈ EM) →
      (∀ p ∈ st.fromDomEdges.entries, ∃ e2, (p.1, e2) ∈ EM ∧ p.2 = c.edges.get e2) →
      ∀ p ∈ (Morphism.edgeLoop d c pairs st).fromDomEdges.entries,
        ∃ e2, (p.1, e2) ∈ EM ∧ p.2 = c.edges.get e2 := by
  intro pairs
  induction pairs with
  | nil => intro st _ hinv; exact hinv
  | cons hd rest ih =>
      intro st hsub hinv
      obtain ⟨e1, e2⟩ := hd
      rw [show Morphism.edgeLoop d c ((e1, e2) :: rest) st =
        Morphism.edgeLoop d c rest
          { st with
            fromDomEdges := st.fromDomEdges.set e1 (c.edges.get e2)
            fromCodEdges := st.fromCodEdges.set e2 (d.edges.get e1)
            eqDomEdges := st.eqDomEdges.set e1 st.numEquivClasses
            eqCodEdges := st.eqCodEdges.set e2 st.numEquivClasses
            numEquivClasses := st.numEquivClasses + 1 } from rfl]
      refine ih _ (fun q hq => hsub q (List.mem_cons_of_mem _ hq)) ?_
      intro p hp
      rcases Gmap.mem_setEntries hp with h | h
      · exact hinv p h
      · subst h
        exact ⟨e2, hsub (e1, e2) (List.mem_cons_self _ _), rfl⟩

theorem Morphism.edgeLoop_fromCod_raw (d c : Graph) (EM : List (Int × Int)) :
    ∀ (pairs : List (Int × Int)) (st : MAssembleState),
      (∀ q ∈ pairs, q ∈ EM) →
      (∀ p ∈ st.fromCodEdges.entries, ∃ e1, (e1, p.1) ∈ EM ∧ p.2 = d.edges.get e1) →
      ∀ p ∈ (Morphism.edgeLoop d c pairs st).fromCodEdges.entries,
        ∃ e1, (e1, p.1) ∈ EM ∧ p.2 = d.edges.get e1 := by
  intro pairs
  induction pairs with
  | nil => intro st _ hinv; exact hinv
  | cons hd rest ih =>
      intro st hsub hinv
      obtain ⟨e1, e2⟩ := hd
      rw [show Morphism.edgeLoop d c ((e1, e2) :: rest) st =
        Morphism.edgeLoop d c rest
          { st with
            fromDomEdges := st.fromDomEdges.set e1 (c.edges.get e2)
            fromCodEdges := st.fromCodEdges.set e2 (d.edges.get e1)
            eqDomEdges := st.eqDomEdges.set e1 st.numEquivClasses
            eqCodEdges := st.eqCodEdges.set e2 st.numEquivClasses
            numEquivClasses := st.numEquivClasses + 1 } from rfl]
      refine ih _ (fun q hq => hsub q (List.mem_cons_of_mem _ hq)) ?_
      intro p hp
      rcases Gmap.mem_setEntries hp with h | h
      · exact hinv p h
      · subst h
        exact ⟨e1, hsub (e1, e2) (List.mem_cons_self _ _), rfl⟩

/-- C3 amended: Morphism.assemble performs no validation at all: it never
fails, and for each (domainId, codomainId) pair of the node mapping and of
the edge mapping it records under both ids the raw dictionary lookup of the
other side (undefined exactly when the referenced id is absent; a later
pair with the same id overwrites the binding of an earlier one) and assigns
an equivalence class to both ids; the morphism object is returned
regardless.  Every binding of the returned mapping dictionaries is such a
raw lookup of one of the input pairs. -/
theorem morphism_assemble_records_raw_lookups (d c : Graph)
    (nm : List (String × String)) (em : List (Int × Int)) :
    (∀ q ∈ nm,
      (∃ v, (Morphism.assemble d c nm em).mappingFromDomain.nodes.get q.1 = some v) ∧
      (∃ v, (Morphism.assemble d c nm em).mappingFromCodomain.nodes.get q.2 = some v) ∧
      (∃ k, (Morphism.assemble d c nm em).equivalenceClassFromDomain.nodes.get q.1 =
        some k) ∧
      (∃ k, (Morphism.assemble d c nm em).equivalenceClassFromCodomain.nodes.get q.2 =
        some k)) ∧
    (∀ q ∈ em,
      (∃ v, (Morphism.assemble d c nm em).mappingFromDomain.edges.get q.1 = some v) ∧
      (∃ v, (Morphism.assemble d c nm em).mappingFromCodomain.edges.get q.2 = some v) ∧
      (∃ k, (Morphism.assemble d c nm em).equivalenceClassFromDomain.edges.get q.1 =
        some k) ∧
      (∃ k, (Morphism.assemble d c nm em).equivalenceClassFromCodomain.edges.get q.2 =
        some k)) ∧
    (∀ p ∈ (Morphism.assemble d c nm em).mappingFromDomain.nodes.entries,
      ∃ n2, (p.1, n2) ∈ nm ∧ p.2 = c.nodes.get n2) ∧
    (∀ p ∈ (Morphism.assemble d c nm em).mappingFromCodomain.nodes.entries,
      ∃ n1, (n1, p.1) ∈ nm ∧ p.2 = d.nodes.get n1) ∧
    (∀ p ∈ (Morphism.assemble d c nm em).mappingFromDomain.edges.entries,
      ∃ e2, (p.1, e2) ∈ em ∧ p.2 = c.edges.get e2) ∧
    (∀ p ∈ (Morphism.assemble d c nm em).mappingFromCodomain.edges.entries,
      ∃ e1, (e1, p.1) ∈ em ∧ p.2 = d.edges.get e1) := by
  refine ⟨?_, ?_, ?_, ?_, ?_, ?_⟩
  · intro q hq
    have hc := Morphism.nodeLoop_covers d c nm
      (MAssembleState.mk Gmap.empty Gmap.empty Gmap.empty Gmap.empty
        Gmap.empty Gmap.empty Gmap.empty Gmap.empty 0) q hq
    refine ⟨?_, ?_, ?_, ?_⟩
    · show ∃ v, (Morphism.edgeLoop d c em (Morphism.nodeLoop d c nm
        (MAssembleState.mk Gmap.empty Gmap.empty Gmap.empty Gmap.empty
          Gmap.empty Gmap.empty Gmap.empty Gmap.empty 0))).fromDomNodes.get q.1 = some v
      rw [Morphism.edgeLoop_fromDomNodes]
      exact hc.1
    · show ∃ v, (Morphism.edgeLoop d c em (Morphism.nodeLoop d c nm
        (MAssembleState.mk Gmap.empty Gmap.empty Gmap.empty Gmap.empty
          Gmap.empty Gmap.empty Gmap.empty Gmap.empty 0))).fromCodNodes.get q.2 = some v
      rw [Morphism.edgeLoop_fromCodNodes]
      exact hc.2.1
    · show ∃ k, (Morphism.edgeLoop d c em (Morphism.nodeLoop d c nm
        (MAssembleState.mk Gmap.empty Gmap.empty Gmap.empty Gmap.empty
          Gmap.empty Gmap.empty Gmap.empty Gmap.empty 0))).eqDomNodes.get q.1 = some k
      rw [Morphism.edgeLoop_eqDomNodes]
      exact hc.2.2.1
    · show ∃ k, (Morphism.edgeLoop d c em (Morphism.nodeLoop d c nm
        (MAssembleState.mk Gmap.empty Gmap.empty Gmap.empty Gmap.empty
          Gmap.empty Gmap.empty Gmap.empty Gmap.empty 0))).eqCodNodes.get q.2 = some k
      rw [Morphism.edgeLoop_eqCodNodes]
      exact hc.2.2.2
  · intro q hq
    exact Morphism.edgeLoop_covers d c em (Morphism.nodeLoop d c nm
      (MAssembleState.mk Gmap.empty Gmap.empty Gmap.empty Gmap.empty
        Gmap.empty Gmap.empty Gmap.empty Gmap.empty 0)) q hq
  · show ∀ p ∈ (Morphism.edgeLoop d c em (Morphism.nodeLoop d c nm
      (MAssembleState.mk Gmap.empty Gmap.empty Gmap.empty Gmap.empty
        Gmap.empty Gmap.empty Gmap.empty Gmap.empty 0))).fromDomNodes.entries, _
    rw [Morphism.edgeLoop_fromDomNodes]
    exact Morphism.nodeLoop_fromDom_raw d c nm nm _ (fun q hq => hq)
      (by intro p hp; cases hp)
  · show ∀ p ∈ (Morphism.edgeLoop d c em (Morphism.nodeLoop d c nm
      (MAssembleState.mk Gmap.empty Gmap.empty Gmap.empty Gmap.empty
        Gmap.empty Gmap.empty Gmap.empty Gmap.empty 0))).fromCodNodes.entries, _
    rw [Morphism.edgeLoop_fromCodNodes]
    exact Morphism.nodeLoop_fromCod_raw d c nm nm _ (fun q hq => hq)
      (by intro p hp; cases hp)
  · refine Morphism.edgeLoop_fromDom_raw d c em em _ (fun q hq => hq) ?_
    intro p hp
    rw [Morphism.nodeLoop_fromDomEdges] at hp
    cases hp
  · refine Morphism.edgeLoop_fromCod_raw d c em em _ (fun q hq => hq) ?_
    intro p hp
    rw [Morphism.nodeLoop_fromCodEdges] at hp
    cases hp

/-- C3 amended witness: mapping the floor node to the absent codomain id
request and the absent domain edge id 5 to the codomain edge 1, assembly
returns a morphism in which all four ids are recorded (the absent sides as
undefined lookups) and all four ids carry an equivalence class. -/
theorem morphism_assemble_records_raw_lookups_witness :
    (∃ v, (Morphism.assemble exLHS exRHS [("floor", "request")]
      [(5, 1)]).mappingFromDomain.nodes.get "floor" = some v) ∧
    (∃ k, (Morphism.assemble exLHS exRHS [("floor", "request")]
      [(5, 1)]).equivalenceClassFromCodomain.nodes.get "request" = some k) ∧
    (∃ v, (Morphism.assemble exLHS exRHS [("floor", "request")]
      [(5, 1)]).mappingFromDomain.edges.get 5 = some v) ∧
    (∃ k, (Morphism.assemble exLHS exRHS [("floor", "request")]
      [(5, 1)]).equivalenceClassFromDomain.edges.get 5 = some k) := by
  have h := morphism_assemble_records_raw_lookups exLHS exRHS
    [("floor", "request")] [(5, 1)]
  obtain ⟨hnode, hedge, -, -, -, -⟩ := h
  obtain ⟨h1, -, -, h4⟩ := hnode ("floor", "request") (List.mem_singleton.mpr rfl)
  obtain ⟨h5, -, h7, -⟩ := hedge (5, 1) (List.mem_singleton.mpr rfl)
  exact ⟨h1, h4, h5, h7⟩
